import Mathlib

/-!
Verification of the composify resolution/construction engine.

This file shallowly embeds the core of the `composify` package:

* `composify.resolutions` — resolution modes and `split_resolution`;
* `composify.blueprint`   — `Blueprint`, `permutate_parameters` and
  `BlueprintResolver` (`_create_plans`, `_resolve_exhaustive`,
  `_resolve_plan`, `_resolve_unique`, `_resolve_first`, `_resolve`,
  `resolve`), with the memo dictionary threaded explicitly and a fuel
  parameter marking divergence;
* `composify._registry`   — `DefaultEntriesFilterer`, `DefaultEntriesCollator`,
  `MemoizedTypeResolver` and `TypedRegistry`;
* `composify.builder`     — the synchronous `Builder`.

Python types with `Annotated` metadata are modelled by `Key`: a base type
identity plus the optional `Resolution` qualifier (the only qualifier the
resolver reads).  Registry keys carry attribute tags and the
`DisallowSubclass` qualifier instead.  Exceptions become explicit error
values; generators are materialised eagerly, which matches how every caller
inside the package consumes them (`tuple(...)`, `sorted(...)`,
`constructions.extend(...)`).
-/

/-! ### composify.resolutions -/

/-- Model of `ResolutionType` — the three valid resolution strings. -/
inductive ResolutionType where
  | exhaustive
  | select_first
  | unique
deriving DecidableEq, Repr

/-- Model of `ResolutionMode: TypeAlias = ResolutionType | Sequence[ResolutionType]`. -/
inductive ResolutionMode where
  | single (t : ResolutionType)
  | seq (ts : List ResolutionType)
deriving DecidableEq, Repr

/-- Model of `DEFAULT_RESOLUTION_MODE: ResolutionMode = UNIQUE`. -/
def DEFAULT_RESOLUTION_MODE : ResolutionMode := .single .unique

/-- Model of `is_resolution_mode` — in the typed embedding every representable value
is a valid mode (every member of a sequence is a `ResolutionType` by
construction), so both branches of the Python check return `True`. -/
def is_resolution_mode : ResolutionMode → Bool
  | .single _ => true
  | .seq _ => true

/-- Model of `split_resolution` — splits a mode into the mode for the current level
and the mode for deeper levels.  On an empty sequence the Python code falls
through to `resolution[0]` and raises `IndexError`; that case is `none`. -/
def split_resolution : ResolutionMode → Option (ResolutionType × ResolutionMode)
  | .single t => some (t, .single t)
  | .seq [] => none
  | .seq [t] => some (t, .single t)
  | .seq (t :: u :: rest) =>
    match rest with
    | [] => some (t, .single u)
    | _ => some (t, .seq (u :: rest))

/-- Python `resolve` evaluates `mode or self._default_resolution`: both `None` and
the falsy empty sequence select the default mode. -/
def modeOrDefault : Option ResolutionMode → ResolutionMode
  | none => DEFAULT_RESOLUTION_MODE
  | some (.seq []) => DEFAULT_RESOLUTION_MODE
  | some m => m

/-! ### Keys

A resolver key is a Python type possibly wrapped in `Annotated[...]`
metadata.  `collect_qualifiers` only ever yields the `Resolution` qualifier
on the paths exercised by `BlueprintResolver._resolve`, so a key is a base
type identity plus that optional qualifier.  `Annotated[t, Resolution(m)]`
is `{ t with resolution := some m }`. -/

structure Key where
  base : Nat
  resolution : Option ResolutionType := none
deriving DecidableEq, Repr

/-- A trace triple `(constructor.source, name, target)` as recorded by
`_Tracing`; the third component is the (annotated) target type. -/
abbrev Trace := String × String × Key

/-! ### composify.constructor -/

/-- Model of `Constructor` — constructor information for a type.  The callable is
identified by a numeric id (`ctorId`); its behaviour is irrelevant to
resolution. -/
structure Ctor where
  source : String
  ctorId : Nat
  is_async : Bool
  is_optional : Bool
  output_type : Key
  dependencies : List (String × Key)
deriving DecidableEq, Repr

/-- Model of `ConstructorProvider.provide_for_type`, abstracted: a provider maps a
requested (annotated) type to the constructors it offers for it. -/
abbrev Provider := Key → List Ctor

/-! ### composify.blueprint — Blueprint

`Blueprint` is a frozen dataclass whose `dependencies` is a
`frozenset[tuple[str, Blueprint]]`.  The dependency collection is modelled
as the mutually inductive list type `BPDeps` (Lean 4.14 cannot recurse
structurally through a nested `List`); set-valued equality is recovered by
`BP.pyEq` below.  Field order follows the dataclass. -/

mutual
inductive BP where
  | mk (source : String) (ctorId : Nat) (is_async : Bool) (output_type : Key)
      (dependencies : BPDeps) (priority : List Nat) (is_optional : Bool)

inductive BPDeps where
  | nil
  | cons (name : String) (bp : BP) (rest : BPDeps)
end

def BP.source : BP → String
  | .mk s _ _ _ _ _ _ => s

def BP.ctorId : BP → Nat
  | .mk _ c _ _ _ _ _ => c

def BP.is_async : BP → Bool
  | .mk _ _ a _ _ _ _ => a

def BP.output_type : BP → Key
  | .mk _ _ _ o _ _ _ => o

def BP.dependencies : BP → BPDeps
  | .mk _ _ _ _ d _ _ => d

def BP.priority : BP → List Nat
  | .mk _ _ _ _ _ p _ => p

def BP.is_optional : BP → Bool
  | .mk _ _ _ _ _ _ o => o

/-- Build a `BPDeps` from a parameter list (the order of insertion into the
Python `frozenset`). -/
def BPDeps.ofList : List (String × BP) → BPDeps
  | [] => .nil
  | (n, b) :: rest => .cons n b (BPDeps.ofList rest)

def BPDeps.toList : BPDeps → List (String × BP)
  | .nil => []
  | .cons n b rest => (n, b) :: BPDeps.toList rest

/-! Dataclass equality of `Blueprint`: `source`, `is_async`, `output_type`,
`priority` and `is_optional` are declared `compare=False`, so two
Blueprints compare equal iff their `constructor`s are equal and their
`dependencies` frozensets are equal (mutual inclusion, elements compared
recursively by the same equality).  The functions are driven by an explicit
fuel so that they are structurally recursive and kernel-reducible;
`BP.size` computes a sufficient fuel. -/

mutual
def BP.size : BP → Nat
  | .mk _ _ _ _ d _ _ => 1 + 2 * BPDeps.size d

def BPDeps.size : BPDeps → Nat
  | .nil => 1
  | .cons _ b rest => 2 + BP.size b + BPDeps.size rest
end

mutual
/-- Model of `Blueprint.__eq__` at fuel `f`:
`self.constructor == other.constructor and self.dependencies == other.dependencies`. -/
def pyEqF : Nat → BP → BP → Bool
  | 0, _, _ => false
  | f + 1, .mk _ c₁ _ _ d₁ _ _, .mk _ c₂ _ _ d₂ _ _ =>
    c₁ == c₂ && subF f d₁ d₂ && subF f d₂ d₁

/-- frozenset membership of a `(name, blueprint)` pair at fuel `f`. -/
def memF : Nat → String × BP → BPDeps → Bool
  | 0, _, _ => false
  | _ + 1, _, .nil => false
  | f + 1, p, .cons n b rest => (p.1 == n && pyEqF f p.2 b) || memF f p rest

/-- frozenset inclusion at fuel `f`. -/
def subF : Nat → BPDeps → BPDeps → Bool
  | 0, _, _ => false
  | _ + 1, .nil, _ => true
  | f + 1, .cons n b rest, qs => memF f (n, b) qs && subF f rest qs
end

/-- Model of `Blueprint.__eq__`: value equality on `(constructor, dependencies)`. -/
def BP.pyEq (a b : BP) : Bool := pyEqF (BP.size a + BP.size b) a b

/-! ### composify.blueprint — permutate_parameters

`_permutate_parameters` enumerates, depth first, the Cartesian product of
the per-dependency candidate tuples, the first dependency varying slowest.
`permProduct` produces the same sequence of permutations; the level paired
with each permutation by the Python generator equals the number of
parameters accumulated, i.e. the length of the permutation. -/

def permProduct : List (String × List BP) → List (List (String × BP))
  | [] => [[]]
  | (n, vs) :: rest =>
    let tails := permProduct rest
    (vs.map (fun v => tails.map (fun t => (n, v) :: t))).flatten

/-- Model of `permutate_parameters`. -/
def permutate_parameters (ps : List (String × List BP)) :
    List (List (String × BP) × Nat) :=
  (permProduct ps).map (fun t => (t, t.length))

/-! ### Resolver errors

`ResolverError` values produced by the resolver, carrying the payloads the
Python constructors store.  `indexError` models the raw `IndexError` from
`split_resolution` on an empty sequence (not a `ResolverError`; caught
nowhere). -/

inductive RErr where
  | noConstructor (target : Key) (traces : List Trace)
  | cyclic (target : Key) (traces : List Trace)
  | failure (target : Key) (traces : List Trace) (errors : List RErr)
  | multipleDependency (target : Key) (solutions : List String) (traces : List Trace)
  | invalidMode
  | indexError

/-- Result of a resolver call: a value, a raised error, or divergence
(out of fuel). -/
inductive RRes (α : Type) where
  | ok (val : α)
  | err (e : RErr)
  | div

/-- Test for `isinstance(error, CyclicDependencyError)`. -/
def RErr.isCyclic : RErr → Bool
  | .cyclic _ _ => true
  | _ => false

/-- Test for `isinstance(error, MultipleDependencyResolutionError)`. -/
def RErr.isMultipleDependency : RErr → Bool
  | .multipleDependency _ _ _ => true
  | _ => false

/-- Model of `ResolutionFailureError.contains(exc_type)`. -/
def RErr.failureContains (p : RErr → Bool) : RErr → Bool
  | .failure _ _ es => es.any p
  | _ => false

/-! ### composify.blueprint — BlueprintResolver

The resolver's only state is `self._memo: dict[type, tuple[Constructor, ...]]`,
threaded here as an association list (dictionary insertion order).  Every
function returns its result together with the memo as left behind, also
when an exception propagates — Python keeps memo mutations made inside a
failed branch.  Recursion into dependencies consumes one unit of fuel;
`RRes.div` marks fuel exhaustion (the Python code can genuinely diverge on
adversarial providers). -/

abbrev Memo := List (Key × List Ctor)

/-- Model of `BlueprintResolver._raw_create_plans`: concatenate, in registration
order, what every provider offers for the target. -/
def raw_create_plans : List Provider → Key → List Ctor
  | [], _ => []
  | p :: ps, t => p t ++ raw_create_plans ps t

/-- Model of `BlueprintResolver._create_plans`: memoised `_raw_create_plans`.  A
cached empty tuple is a hit (the Python code tests `is None`, not
falsiness). -/
def create_plans (P : List Provider) (memo : Memo) (target : Key) :
    List Ctor × Memo :=
  match memo.find? (fun e => e.1 == target) with
  | some e => (e.2, memo)
  | none =>
    let r := raw_create_plans P target
    (r, memo ++ [(target, r)])

/-- The type of the recursive entry point `BlueprintResolver._resolve` as
seen by one recursion level: memo, target, name, mode, trace, priority. -/
abbrev RecFn :=
  Memo → Key → String → ResolutionMode → List Trace → List Nat →
    RRes (List BP) × Memo

/-- Dependency loop of `BlueprintResolver._resolve_plan`: resolve every
declared dependency key in order, materialising each result tuple. -/
def resolve_deps (rec : RecFn) (mode : ResolutionMode) (tracing : List Trace)
    (priority : List Nat) :
    Memo → List (String × Key) → RRes (List (String × List BP)) × Memo
  | memo, [] => (.ok [], memo)
  | memo, (depName, depKey) :: rest =>
    match rec memo depKey depName mode tracing priority with
    | (.ok bps, m') =>
      match resolve_deps rec mode tracing priority m' rest with
      | (.ok params, m'') => (.ok ((depName, bps) :: params), m'')
      | other => other
    | (.err e, m') => (.err e, m')
    | (.div, m') => (.div, m')

/-- Emission loop of `_resolve_plan`: one Blueprint per permutation, the
counter `i` appended to the priority. -/
def emit_permutations (plan : Ctor) (planOrder : Nat) (priority : List Nat) :
    Nat → List (List (String × BP) × Nat) → List BP
  | _, [] => []
  | i, (pp, _) :: rest =>
    BP.mk plan.source plan.ctorId
      (plan.is_async || pp.any (fun q => q.2.is_async))
      plan.output_type (BPDeps.ofList pp) (priority ++ [planOrder, i])
      (plan.is_optional || pp.any (fun q => q.2.is_optional))
    :: emit_permutations plan planOrder priority (i + 1) rest

/-- Model of `BlueprintResolver._resolve_plan`. -/
def resolve_plan (rec : RecFn) (memo : Memo) (target : Key) (name : String)
    (plan : Ctor) (planOrder : Nat) (mode : ResolutionMode)
    (trace : List Trace) (priority : List Nat) : RRes (List BP) × Memo :=
  let curr : Trace := (plan.source, name, target)
  let tracing := trace ++ [curr]
  if curr ∈ trace then (.err (.cyclic target tracing), memo)
  else
    match plan.dependencies with
    | [] =>
      (.ok [BP.mk plan.source plan.ctorId plan.is_async plan.output_type
        .nil (priority ++ [planOrder, 0]) plan.is_optional], memo)
    | d :: ds =>
      match resolve_deps rec mode tracing priority memo (d :: ds) with
      | (.ok params, m') =>
        (.ok (emit_permutations plan planOrder priority 0
          (permutate_parameters params)), m')
      | (.err e, m') => (.err e, m')
      | (.div, m') => (.div, m')

/-- Candidate loop of `BlueprintResolver._resolve_exhaustive`:
`NoConstructorError` and `CyclicDependencyError` from a branch are
appended to `errors`; a nested `ResolutionFailureError` contributes its
`errors`; anything else propagates.  When the loop ends with no
constructions and at least one collected error, a
`ResolutionFailureError` aggregates them. -/
def resolve_plans_loop (rec : RecFn) (target : Key) (name : String)
    (mode : ResolutionMode) (trace : List Trace) (priority : List Nat) :
    Memo → Nat → List RErr → List BP → List Ctor → RRes (List BP) × Memo
  | memo, _, errors, constructions, [] =>
    if constructions.isEmpty && !errors.isEmpty then
      (.err (.failure target trace errors), memo)
    else (.ok constructions, memo)
  | memo, planOrder, errors, constructions, plan :: rest =>
    match resolve_plan rec memo target name plan planOrder mode trace priority with
    | (.ok bps, m') =>
      resolve_plans_loop rec target name mode trace priority m'
        (planOrder + 1) errors (constructions ++ bps) rest
    | (.err (.noConstructor t tr), m') =>
      resolve_plans_loop rec target name mode trace priority m'
        (planOrder + 1) (errors ++ [.noConstructor t tr]) constructions rest
    | (.err (.cyclic t tr), m') =>
      resolve_plans_loop rec target name mode trace priority m'
        (planOrder + 1) (errors ++ [.cyclic t tr]) constructions rest
    | (.err (.failure _ _ es), m') =>
      resolve_plans_loop rec target name mode trace priority m'
        (planOrder + 1) (errors ++ es) constructions rest
    | (.err e, m') => (.err e, m')
    | (.div, m') => (.div, m')

/-- Model of `BlueprintResolver._resolve_exhaustive`. -/
def resolve_exhaustive (P : List Provider) (rec : RecFn) (memo : Memo)
    (target : Key) (name : String) (mode : ResolutionMode)
    (trace : List Trace) (priority : List Nat) : RRes (List BP) × Memo :=
  match create_plans P memo target with
  | (plans, m₁) =>
    if plans.isEmpty then (.err (.noConstructor target trace), m₁)
    else resolve_plans_loop rec target name mode trace priority m₁ 0 [] [] plans

/-- Model of `for bp in resolved: yield bp; if not bp.is_optional: return` — yield
up to and including the first non-optional Blueprint. -/
def yield_until_non_optional : List BP → List BP
  | [] => []
  | bp :: rest =>
    if bp.is_optional then bp :: yield_until_non_optional rest else [bp]

/-- Model of `BlueprintResolver._resolve_unique`. -/
def resolve_unique (P : List Provider) (rec : RecFn) (memo : Memo)
    (target : Key) (name : String) (mode : ResolutionMode)
    (trace : List Trace) (priority : List Nat) : RRes (List BP) × Memo :=
  match resolve_exhaustive P rec memo target name mode trace priority with
  | (.ok resolved, m') =>
    if resolved.countP (fun bp => !bp.is_optional) > 1 then
      (.err (.multipleDependency target (resolved.map BP.source) trace), m')
    else (.ok (yield_until_non_optional resolved), m')
  | other => other

/-- Model of `BlueprintResolver._resolve_first`. -/
def resolve_first (P : List Provider) (rec : RecFn) (memo : Memo)
    (target : Key) (name : String) (mode : ResolutionMode)
    (trace : List Trace) (priority : List Nat) : RRes (List BP) × Memo :=
  match resolve_exhaustive P rec memo target name mode trace priority with
  | (.ok resolved, m') => (.ok (yield_until_non_optional resolved), m')
  | other => other

/-- Model of `BlueprintResolver._resolve` (with `_select_resolver` inlined as the
final match): split the mode, let an explicit `Resolution` qualifier on the
target override the current level's mode, otherwise stamp the current mode
onto the target as a qualifier, then dispatch.  One unit of fuel is
consumed per recursion level. -/
def resolveR (P : List Provider) :
    Nat → Memo → Key → String → ResolutionMode → List Trace → List Nat →
      RRes (List BP) × Memo
  | 0, memo, _, _, _, _, _ => (.div, memo)
  | fuel + 1, memo, target, name, mode, trace, priority =>
    match split_resolution mode with
    | none => (.err .indexError, memo)
    | some (m₀, nextModes) =>
      let m := match target.resolution with
        | some r => r
        | none => m₀
      let t := match target.resolution with
        | some _ => target
        | none => { target with resolution := some m₀ }
      match m with
      | .unique =>
        resolve_unique P (resolveR P fuel) memo t name nextModes trace priority
      | .exhaustive =>
        resolve_exhaustive P (resolveR P fuel) memo t name nextModes trace priority
      | .select_first =>
        resolve_first P (resolveR P fuel) memo t name nextModes trace priority

/-! Deterministic top-level ordering: `sorted(..., key=lambda x: x.priority)`.
Priorities are int tuples compared lexicographically; Python's sort is
stable, modelled by a stable insertion sort. -/

/-- Lexicographic `<=` on int tuples (a strict prefix is smaller). -/
def lexLe : List Nat → List Nat → Bool
  | [], _ => true
  | _ :: _, [] => false
  | a :: as, b :: bs => if a < b then true else if b < a then false else lexLe as bs

/-- Stable insertion of `x` after every element whose key is `<=` its key. -/
def insertLe (le : α → α → Bool) (x : α) : List α → List α
  | [] => [x]
  | y :: ys => if le y x then y :: insertLe le x ys else x :: y :: ys

/-- Stable sort (insertion sort, processing the list left to right). -/
def sortLe (le : α → α → Bool) (l : List α) : List α :=
  l.foldl (fun acc x => insertLe le x acc) []

def blueprintLe (a b : BP) : Bool := lexLe a.priority b.priority

/-- Model of `BlueprintResolver.resolve`: validate the mode, run `_resolve` with the
root tracing and empty priority, sort the results ascending by priority;
`NoConstructorError`, `CyclicDependencyError` and
`MultipleDependencyResolutionError` are caught and wrapped in a
`ResolutionFailureError` carrying the (empty) top-level trace. -/
def resolveTop (P : List Provider) (fuel : Nat) (memo : Memo) (target : Key)
    (modeArg : Option ResolutionMode) : RRes (List BP) × Memo :=
  let mode := modeOrDefault modeArg
  if is_resolution_mode mode then
    match resolveR P fuel memo target "__root__" mode [] [] with
    | (.ok l, m') => (.ok (sortLe blueprintLe l), m')
    | (.err (.noConstructor t tr), m') =>
      (.err (.failure target [] [.noConstructor t tr]), m')
    | (.err (.cyclic t tr), m') =>
      (.err (.failure target [] [.cyclic t tr]), m')
    | (.err (.multipleDependency t s tr), m') =>
      (.err (.failure target [] [.multipleDependency t s tr]), m')
    | (.err e, m') => (.err e, m')
    | (.div, m') => (.div, m')
  else (.err .invalidMode, memo)

/-! ### composify._registry

Registry entries are dataclass-like values: structural equality.  An
entry's key contributes `get_type(entry.key)` (`keyType`),
`resolve_base_types(entry.key)` (through the ambient hierarchy function
`bases`), and `len(entry.key.mro())` (`mroLen`).  `pyClass` is the runtime
class of the entry object, used by the `type(x) is context.key` filter. -/

structure REntry where
  id : Nat
  keyType : Nat
  pyClass : Nat
  mroLen : Nat
  attributes : List Nat
  priority : Int
deriving DecidableEq, Repr

/-- A registry lookup key: `get_type(key)` (`typeId`), the identity of the
key object itself (`objId`, for `is` comparisons and memo lookups),
`collect_attributes(key)` and the `DisallowSubclass` qualifier.  A plain
type used as a key is its own object. -/
structure RKey where
  typeId : Nat
  objId : Nat
  attributes : List Nat
  disallowSubclass : Bool
deriving DecidableEq, Repr

def plainRKey (t : Nat) : RKey :=
  { typeId := t, objId := t, attributes := [], disallowSubclass := false }

/-- Model of `frozenset.issuperset`: `a ⊇ b`. -/
def issuperset (a b : List Nat) : Bool := b.all (fun x => a.contains x)

/-- Model of `DefaultEntriesFilterer.filter_entries`. -/
def filter_entries (entries : List REntry) (k : RKey) : List REntry :=
  let entries :=
    if !k.attributes.isEmpty then
      entries.filter (fun e => issuperset e.attributes k.attributes)
    else entries
  if !entries.isEmpty then
    if k.disallowSubclass then entries.filter (fun e => e.pyClass == k.objId)
    else entries
  else entries

/-- Model of `Entry.ordering`: `(-entry.priority, len(entry.key.mro()))`. -/
def entry_ordering (e : REntry) : Int × Nat := (-e.priority, e.mroLen)

/-- Strict lexicographic order on ordering keys. -/
def orderingLt (a b : Int × Nat) : Bool :=
  a.1 < b.1 || (a.1 == b.1 && a.2 < b.2)

/-- Model of `bisect.insort(entries, entry, key=Entry.ordering)`: insert after every
element whose key is not greater. -/
def insort_entry : List REntry → REntry → List REntry
  | [], e => [e]
  | x :: rest, e =>
    if orderingLt (entry_ordering e) (entry_ordering x) then e :: x :: rest
    else x :: insort_entry rest e

/-- Model of `DefaultEntriesCollator.collate_entries`: reject structural duplicates
(`DuplicatedEntryError` is `none`), otherwise insort. -/
def collate_entries (e : REntry) (es : List REntry) : Option (List REntry) :=
  if es.contains e then none else some (insort_entry es e)

/-- Registry state: the `_entries` dict plus the two memo dictionaries of
the shared `MemoizedTypeResolver` (`_sub_types` and `_base_types`). -/
structure Registry where
  entries : List (Nat × List REntry)
  subTypes : List (Nat × List Nat)
  baseMemo : List (Nat × List Nat)
deriving Repr

def Registry.empty : Registry := { entries := [], subTypes := [], baseMemo := [] }

/-- Dict assignment `d[t] = es` on an existing or new key. -/
def bucketSet : List (Nat × List REntry) → Nat → List REntry → List (Nat × List REntry)
  | [], t, es => [(t, es)]
  | (t', es') :: rest, t, es =>
    if t' == t then (t', es) :: rest else (t', es') :: bucketSet rest t es

/-- Dict deletion `del d[t]`. -/
def bucketDel : List (Nat × List REntry) → Nat → List (Nat × List REntry)
  | [], _ => []
  | (t', es') :: rest, t => if t' == t then rest else (t', es') :: bucketDel rest t

/-- Model of `d.get(t, ())`. -/
def bucketGet (r : Registry) (t : Nat) : List REntry :=
  match r.entries.find? (fun p => p.1 == t) with
  | some p => p.2
  | none => []

/-- Model of `MemoizedTypeResolver.resolve_base_types`, memoised over the ambient
pure hierarchy `bases`. -/
def resolve_base_types_m (bases : Nat → List Nat) (r : Registry) (t : Nat) :
    List Nat × Registry :=
  match r.baseMemo.find? (fun p => p.1 == t) with
  | some p => (p.2, r)
  | none => (bases t, { r with baseMemo := r.baseMemo ++ [(t, bases t)] })

/-- Model of `MemoizedTypeResolver.resolve_sub_types`: a memo hit returns the stored
sub-types (plain types); a miss returns only the queried key. -/
def resolve_sub_types (r : Registry) (k : RKey) : List RKey :=
  match r.subTypes.find? (fun p => p.1 == k.objId) with
  | some p => p.2.map plainRKey
  | none => [k]

/-- Model of `TypedRegistry._add_entry` for one base type `t` (the bucket key):
collate into an existing bucket or open a new one.  `none` is a raised
`DuplicatedEntryError` (bucket unchanged). -/
def add_one (r : Registry) (e : REntry) (t : Nat) : Option Registry :=
  match r.entries.find? (fun p => p.1 == t) with
  | some p =>
    match collate_entries e p.2 with
    | none => none
    | some es => some { r with entries := bucketSet r.entries t es }
  | none => some { r with entries := r.entries ++ [(t, [e])] }

/-- Loop of `TypedRegistry.add_entry` over `resolve_base_types(entry.key)`;
the Boolean records a raised `DuplicatedEntryError`, which aborts the loop
but keeps the insertions already made. -/
def add_entry_loop (e : REntry) : Registry → List Nat → Bool × Registry
  | r, [] => (false, r)
  | r, t :: rest =>
    match add_one r e t with
    | some r' => add_entry_loop e r' rest
    | none => (true, r)

/-- Model of `TypedRegistry.add_entry`. -/
def add_entry (bases : Nat → List Nat) (r : Registry) (e : REntry) :
    Bool × Registry :=
  match resolve_base_types_m bases r e.keyType with
  | (bts, r₁) => add_entry_loop e r₁ bts

/-- Model of `TypedRegistry._remove_entry` for one base type: `list.remove` drops
the first structural match and raises `ValueError` (the Boolean) if the
entry is absent; an emptied bucket is deleted. -/
def remove_one (r : Registry) (e : REntry) (t : Nat) : Bool × Registry :=
  match r.entries.find? (fun p => p.1 == t) with
  | some p =>
    if p.2.contains e then
      match p.2.erase e with
      | [] => (false, { r with entries := bucketDel r.entries t })
      | es => (false, { r with entries := bucketSet r.entries t es })
    else (true, r)
  | none => (false, r)

def remove_entry_loop (e : REntry) : Registry → List Nat → Bool × Registry
  | r, [] => (false, r)
  | r, t :: rest =>
    match remove_one r e t with
    | (false, r') => remove_entry_loop e r' rest
    | (true, r') => (true, r')

/-- Model of `TypedRegistry.remove_entry`. -/
def remove_entry (bases : Nat → List Nat) (r : Registry) (e : REntry) :
    Bool × Registry :=
  match resolve_base_types_m bases r e.keyType with
  | (bts, r₁) => remove_entry_loop e r₁ bts

/-- Model of `TypedRegistry._get_entries`: fetch the bucket for `get_type(key)` and,
when non-empty, apply the default filterer. -/
def get_entries (r : Registry) (k : RKey) : List REntry :=
  let es := bucketGet r k.typeId
  if es.isEmpty then es else filter_entries es k

inductive Variance where
  | invariant
  | covariant
  | contravariant
deriving DecidableEq, Repr

/-- Model of `TypedRegistry.get`.  Covariant lookups scan every key returned by
`resolve_sub_types`; contravariant lookups scan the (memoised) base types,
which are plain types.  The registry is returned because the contravariant
branch can populate the base-type memo. -/
def registry_get (bases : Nat → List Nat) (r : Registry) (k : RKey) :
    Variance → List REntry × Registry
  | .invariant => (get_entries r k, r)
  | .covariant =>
    (((resolve_sub_types r k).map (fun kk => get_entries r kk)).flatten, r)
  | .contravariant =>
    match resolve_base_types_m bases r k.typeId with
    | (bts, r') => ((bts.map (fun t => get_entries r' (plainRKey t))).flatten, r')

/-- Registry states reachable from empty through `add_entry` and
`remove_entry`, including the partially mutated states left behind by a
raised `DuplicatedEntryError` or `ValueError`. -/
inductive Reached (bases : Nat → List Nat) : Registry → Prop
  | init : Reached bases Registry.empty
  | add (r : Registry) (e : REntry) :
      Reached bases r → Reached bases (add_entry bases r e).2
  | remove (r : Registry) (e : REntry) :
      Reached bases r → Reached bases (remove_entry bases r e).2

/-! ### composify.builder — the synchronous Builder

`Builder._cache: dict[Blueprint, Any]` keyed by Blueprint value equality;
`_save_to` is modelled as `None` (its default).  The builder is
parameterised by the ambient evaluation `ev` of constructor callables on
keyword arguments; `ev c params = none` is a constructor returning `None`.
Every invocation of a constructor is appended to `calls` so invocation
counts are observable.  `_from_blueprint` is inlined after the cache miss
(Lean's structural termination cannot thread the pair of mutually
recursive methods); the inlined block is marked below. -/

inductive BErr where
  | asyncBlueprint
  | nonOptionalMismatch
  | noValue
deriving DecidableEq, Repr

structure BState (V : Type) where
  cache : List (BP × Option V)
  calls : List Nat

def BState.empty : BState V := { cache := [], calls := [] }

/-- Raw dict lookup: `some v` when some cached key is `pyEq`-equal. -/
def cache_lookup (cache : List (BP × Option V)) (bp : BP) : Option (Option V) :=
  (cache.find? (fun e => bp.pyEq e.1)).map (fun e => e.2)

/-- Model of `self._cache.get(blueprint, None)`: an absent key and a stored `None`
both give `None`. -/
def cache_get_py (cache : List (BP × Option V)) (bp : BP) : Option V :=
  match cache_lookup cache bp with
  | some v => v
  | none => none

/-- Dict assignment `self._cache[blueprint] = value` (the original key
object is kept on overwrite). -/
def cache_set : List (BP × Option V) → BP → Option V → List (BP × Option V)
  | [], b, v => [(b, v)]
  | (b', v') :: rest, b, v =>
    if b.pyEq b' then (b', v) :: rest else (b', v') :: cache_set rest b v

mutual
/-- Model of `Builder.from_blueprint` with `Builder._from_blueprint` inlined at the
cache miss. -/
def from_blueprint (ev : Nat → List (String × V) → Option V) :
    BState V → BP → Except BErr (Option V) × BState V
  | s, .mk src c async o deps pri opt =>
    if async then (.error .asyncBlueprint, s)
    else
      match cache_get_py s.cache (BP.mk src c async o deps pri opt) with
      | some v => (.ok (some v), s)
      | none =>
        -- begin inlined `_from_blueprint`
        match build_deps ev s deps with
        | (.ok params, s₁) =>
          let value := ev c params
          let s₂ : BState V := { s₁ with calls := s₁.calls ++ [c] }
          if value.isNone && !opt then (.error .nonOptionalMismatch, s₂)
          -- end inlined `_from_blueprint`; store the result, skip `_save_to`
          else (.ok value,
            { s₂ with
              cache := cache_set s₂.cache (BP.mk src c async o deps pri opt) value })
        | (.error e, s₁) => (.error e, s₁)

/-- The parameter dict comprehension of `_from_blueprint`: build every
dependency and pass it through `_assert_optionality` (`NoValueError` on an
absent value). -/
def build_deps (ev : Nat → List (String × V) → Option V) :
    BState V → BPDeps → Except BErr (List (String × V)) × BState V
  | s, .nil => (.ok [], s)
  | s, .cons n b rest =>
    match from_blueprint ev s b with
    | (.ok vo, s₁) =>
      match vo with
      | none => (.error .noValue, s₁)
      | some v =>
        match build_deps ev s₁ rest with
        | (.ok ps, s₂) => (.ok ((n, v) :: ps), s₂)
        | other => other
    | (.error e, s₁) => (.error e, s₁)
end

/-! ### Result projections used in theorem statements -/

/-- The resolution ended in an error whose `errors` contain a
`CyclicDependencyError` (`ResolutionFailureError.contains`). -/
def failsWithCyclic : RRes (List BP) → Bool
  | .err e => e.failureContains RErr.isCyclic
  | _ => false

/-- Number of returned Blueprints, when the resolution succeeded. -/
def okCount : RRes (List BP) → Option Nat
  | .ok l => some l.length
  | _ => none

/-- The returned Blueprints, `[]` otherwise (used only on successful
concrete runs). -/
def okList : RRes (List BP) → List BP
  | .ok l => l
  | _ => []

/-- The raised error, if any. -/
def errOf : RRes (List BP) → Option RErr
  | .err e => some e
  | _ => none

/-- The `(name, dependency.source)` pairs of a Blueprint — the identity of its
dependency pairing. -/
def depSources (bp : BP) : List (String × String) :=
  bp.dependencies.toList.map (fun p => (p.1, p.2.source))

/-! ### Concrete fixtures

A mutually cyclic pair of rules (`A -> B`, `B -> A`), an independent
provider for `A`, pairs of providers for the uniqueness and permutation
scenarios, and small builder/registry fixtures. -/

def keyA : Key := { base := 0 }
def keyB : Key := { base := 1 }

def ctorAB : Ctor :=
  { source := "rule::rAB", ctorId := 1, is_async := false, is_optional := false,
    output_type := keyA, dependencies := [("param", keyB)] }

def ctorBA : Ctor :=
  { source := "rule::rBA", ctorId := 2, is_async := false, is_optional := false,
    output_type := keyB, dependencies := [("param", keyA)] }

def ctorA0 : Ctor :=
  { source := "rule::defaultA", ctorId := 3, is_async := false, is_optional := false,
    output_type := keyA, dependencies := [] }

/-- Rule-backed provider holding the two mutually dependent rules. -/
def provCyc : Provider := fun k =>
  if k.base == 0 then [ctorAB] else if k.base == 1 then [ctorBA] else []

/-- Independent provider for `A`. -/
def provA0 : Provider := fun k => if k.base == 0 then [ctorA0] else []

def ctorA1 : Ctor :=
  { source := "s1", ctorId := 11, is_async := false, is_optional := false,
    output_type := keyA, dependencies := [] }

def ctorA2 : Ctor :=
  { source := "s2", ctorId := 12, is_async := false, is_optional := false,
    output_type := keyA, dependencies := [] }

def ctorA2opt : Ctor :=
  { source := "s2", ctorId := 12, is_async := false, is_optional := true,
    output_type := keyA, dependencies := [] }

/-- Two non-optional constructors for the same key. -/
def provU : Provider := fun k => if k.base == 0 then [ctorA1, ctorA2] else []

/-- A non-optional constructor followed by an optional one. -/
def provNO : Provider := fun k => if k.base == 0 then [ctorA1, ctorA2opt] else []

def keyT : Key := { base := 5 }
def keyX : Key := { base := 6 }
def keyY : Key := { base := 7 }

def ctorT : Ctor :=
  { source := "rule::T", ctorId := 20, is_async := false, is_optional := false,
    output_type := keyT, dependencies := [("x", keyX), ("y", keyY)] }

def mkLeaf (s : String) (c : Nat) (k : Key) : Ctor :=
  { source := s, ctorId := c, is_async := false, is_optional := false,
    output_type := k, dependencies := [] }

def provT : Provider := fun k => if k.base == 5 then [ctorT] else []

def provX : Provider := fun k =>
  if k.base == 6 then [mkLeaf "x1" 21 keyX, mkLeaf "x2" 22 keyX] else []

def provY : Provider := fun k =>
  if k.base == 7 then [mkLeaf "y1" 23 keyY, mkLeaf "y2" 24 keyY] else []

/-- Builder fixture: constructor `7` returns `None`; `8` returns `42`; `9`,
`10` sum their keyword arguments; `11` adds one to the sum. -/
def evFix : Nat → List (String × Nat) → Option Nat
  | 7, _ => none
  | 8, _ => some 42
  | 9, ps => some (ps.map (fun p => p.2)).sum
  | 10, ps => some (ps.map (fun p => p.2)).sum
  | 11, ps => some (1 + (ps.map (fun p => p.2)).sum)
  | _, _ => some 0

/-- An optional Blueprint whose constructor returns `None`. -/
def bpOptNone : BP := .mk "opt" 7 false { base := 0 } .nil [] true

/-- A non-optional Blueprint whose constructor returns `None`. -/
def bpNonOptNone : BP := .mk "no" 7 false { base := 0 } .nil [] false

/-- Diamond: `P` depends on `A` and `B`, both of which depend on the shared
sub-blueprint `S`. -/
def bpS : BP := .mk "S" 8 false { base := 1 } .nil [] false
def bpA : BP := .mk "A" 10 false { base := 2 } (.cons "s" bpS .nil) [] false
def bpB : BP := .mk "B" 11 false { base := 3 } (.cons "s" bpS .nil) [] false
def bpP : BP :=
  .mk "P" 9 false { base := 4 } (.cons "a" bpA (.cons "b" bpB .nil)) [] false

/-- Registry fixtures: a flat hierarchy and two entries under type `1`,
one without attributes and one tagged `5`. -/
def basesFlat : Nat → List Nat := fun t => [t]

def entryPlain : REntry :=
  { id := 1, keyType := 1, pyClass := 100, mroLen := 2, attributes := [], priority := 0 }

def entryTag5 : REntry :=
  { id := 2, keyType := 1, pyClass := 100, mroLen := 2, attributes := [5], priority := 0 }

def reg12 : Registry :=
  (add_entry basesFlat (add_entry basesFlat Registry.empty entryPlain).2 entryTag5).2

def lookupTag5 : RKey :=
  { typeId := 1, objId := 50, attributes := [5], disallowSubclass := false }

def lookupTag6 : RKey :=
  { typeId := 1, objId := 51, attributes := [6], disallowSubclass := false }

/-- A hierarchy where type `3` derives from type `2`, and an entry keyed at
`3`. -/
def basesH : Nat → List Nat := fun t => if t == 3 then [3, 2] else [t]

def entrySub : REntry :=
  { id := 3, keyType := 3, pyClass := 100, mroLen := 3, attributes := [], priority := 0 }

def regH : Registry := (add_entry basesH Registry.empty entrySub).2

def lookupBase2 : RKey :=
  { typeId := 2, objId := 2, attributes := [], disallowSubclass := false }

/-- A recursive entry point that never resolves (used to exercise the
candidate loop on dependency-free constructors). -/
def recDiv : RecFn := fun m _ _ _ _ _ => (.div, m)

/-- The key `keyA` as annotated by a `unique`-mode resolution level. -/
def kAu : Key := { base := 0, resolution := some .unique }

/-- The Blueprints produced for `provU`'s two constructors. -/
def bpU1 : BP := .mk "s1" 11 false keyA .nil [0, 0] false
def bpU2 : BP := .mk "s2" 12 false keyA .nil [1, 0] false

/-- The raised error is itself a `MultipleDependencyResolutionError`. -/
def errIsMultipleDependency (r : RRes (List BP)) : Bool :=
  match errOf r with
  | some e => e.isMultipleDependency
  | none => false

/-- The raised error is a `ResolutionFailureError` containing a
`MultipleDependencyResolutionError`. -/
def failsWithMultiDep : RRes (List BP) → Bool
  | .err e => e.failureContains RErr.isMultipleDependency
  | _ => false

/-! ### Lemmas about Blueprint equality -/

theorem bpSizePos (a : BP) : 1 ≤ BP.size a := by
  cases a with
  | mk s c a o d p o' => simp [BP.size]

theorem bpDepsSizePos (d : BPDeps) : 1 ≤ BPDeps.size d := by
  cases d with
  | nil => simp [BPDeps.size]
  | cons n b rest => simp [BPDeps.size]; omega

theorem natBeqComm (a b : Nat) : (a == b) = (b == a) := by
  by_cases h : a = b
  · subst h; rfl
  · have h1 : (a == b) = false := by simp [h]
    have h2 : (b == a) = false := by simp [Ne.symm h]
    rw [h1, h2]

/-- Reflexivity of the fueled equality at sufficient fuel, together with
the membership and inclusion facts it needs. -/
theorem pyEqF_refl_aux : ∀ f : Nat,
    (∀ a : BP, BP.size a ≤ f → pyEqF f a a = true) ∧
    (∀ (p : String × BP) (d : BPDeps), p ∈ d.toList → BPDeps.size d ≤ f →
      memF f p d = true) ∧
    (∀ d e : BPDeps, (∀ x ∈ d.toList, x ∈ e.toList) →
      BPDeps.size d + BPDeps.size e ≤ f → subF f d e = true) := by
  intro f
  induction f using Nat.strong_induction_on with
  | _ f ih =>
    refine ⟨?_, ?_, ?_⟩
    · intro a ha
      match f, a with
      | 0, a => exact absurd ha (by have := bpSizePos a; omega)
      | f + 1, .mk s c async o d pr opt =>
        have hd : BPDeps.size d + BPDeps.size d ≤ f := by
          simp [BP.size] at ha; omega
        have hs := (ih f (by omega)).2.2 d d (fun x hx => hx) hd
        simp [pyEqF, hs]
    · intro p d hp hd
      match f, d with
      | 0, d => exact absurd hd (by have := bpDepsSizePos d; omega)
      | f + 1, .nil => simp [BPDeps.toList] at hp
      | f + 1, .cons n b rest =>
        simp [BPDeps.size] at hd
        rcases (by simpa [BPDeps.toList] using hp) with h | h
        · have hb : BP.size b ≤ f := by omega
          have := (ih f (by omega)).1 b hb
          simp [memF, h, this]
        · have hrest : BPDeps.size rest ≤ f := by
            have := bpSizePos b; omega
          have := (ih f (by omega)).2.1 p rest h hrest
          simp [memF, this]
    · intro d e hsub hde
      match f, d with
      | 0, d => exact absurd hde (by have := bpDepsSizePos d; omega)
      | f + 1, .nil => simp [subF]
      | f + 1, .cons n b rest =>
        simp [BPDeps.size] at hde
        have he1 : BPDeps.size e ≤ f := by have := bpSizePos b; omega
        have hmem := (ih f (by omega)).2.1 (n, b) e
          (hsub (n, b) (by simp [BPDeps.toList])) he1
        have hrec := (ih f (by omega)).2.2 rest e
          (fun x hx => hsub x (by simp [BPDeps.toList, hx])) (by omega)
        simp [subF, hmem, hrec]

/-- Reflexivity of `Blueprint.__eq__`. -/
theorem BP.pyEq_self (a : BP) : BP.pyEq a a = true := by
  have := (pyEqF_refl_aux (BP.size a + BP.size a)).1 a
    (by have := bpSizePos a; omega)
  simpa [BP.pyEq] using this

/-- The fueled equality is symmetric at every fuel: both inclusion
directions appear in the definition. -/
theorem pyEqF_symm (f : Nat) (a b : BP) : pyEqF f a b = pyEqF f b a := by
  match f, a, b with
  | 0, _, _ => rfl
  | f + 1, .mk s₁ c₁ a₁ o₁ d₁ p₁ q₁, .mk s₂ c₂ a₂ o₂ d₂ p₂ q₂ =>
    simp only [pyEqF]
    rw [natBeqComm c₁ c₂]
    simp only [Bool.and_assoc, Bool.and_comm, Bool.and_left_comm]

/-- Symmetry of `Blueprint.__eq__`. -/
theorem BP.pyEq_symm (a b : BP) : BP.pyEq a b = BP.pyEq b a := by
  unfold BP.pyEq
  rw [Nat.add_comm (BP.size a), pyEqF_symm]

/-- Two Blueprints with equal `constructor` and equal `dependencies`
compare equal, whatever the other fields are. -/
theorem BP.pyEq_of_fields (s₁ s₂ : String) (c : Nat) (a₁ a₂ : Bool)
    (o₁ o₂ : Key) (d : BPDeps) (p₁ p₂ : List Nat) (q₁ q₂ : Bool) :
    BP.pyEq (.mk s₁ c a₁ o₁ d p₁ q₁) (.mk s₂ c a₂ o₂ d p₂ q₂) = true := by
  have hsz : BP.size (BP.mk s₁ c a₁ o₁ d p₁ q₁) = 1 + 2 * BPDeps.size d := by
    simp [BP.size]
  have hsz₂ : BP.size (BP.mk s₂ c a₂ o₂ d p₂ q₂) = 1 + 2 * BPDeps.size d := by
    simp [BP.size]
  have hsub := (pyEqF_refl_aux (1 + 4 * BPDeps.size d)).2.2 d d (fun x hx => hx)
    (by have := bpDepsSizePos d; omega)
  simp only [BP.pyEq, hsz, hsz₂]
  have : 1 + 2 * BPDeps.size d + (1 + 2 * BPDeps.size d)
      = (1 + 4 * BPDeps.size d) + 1 := by omega
  rw [this]
  simp [pyEqF, hsub]

/-! ### Lemmas about the Builder cache -/

theorem cache_lookup_set {V : Type} (c : List (BP × Option V)) (b : BP)
    (v : Option V) : cache_lookup (cache_set c b v) b = some v := by
  induction c with
  | nil => simp [cache_set, cache_lookup, BP.pyEq_self]
  | cons e rest ih =>
    rcases e with ⟨b', v'⟩
    by_cases h : BP.pyEq b b' = true
    · simp [cache_set, h, cache_lookup]
    · have h' : BP.pyEq b b' = false := by
        cases hx : BP.pyEq b b' with
        | false => rfl
        | true => exact absurd hx h
      simp only [cache_set, h', Bool.false_eq_true, if_false]
      simpa [cache_lookup, h'] using ih

/-- A lookup behind a `pyEq`-equal key hits the stored entry. -/
theorem cache_lookup_head {V : Type} (b₁ b₂ : BP) (v : Option V)
    (rest : List (BP × Option V)) (h : BP.pyEq b₁ b₂ = true) :
    cache_lookup ((b₁, v) :: rest) b₂ = some v := by
  have h' : BP.pyEq b₂ b₁ = true := by rw [BP.pyEq_symm]; exact h
  simp [cache_lookup, h']

/-! ### Lemmas about the stable sort -/

theorem lexLe_total (a b : List Nat) : lexLe a b = true ∨ lexLe b a = true := by
  induction a generalizing b with
  | nil => left; rfl
  | cons x xs ih =>
    cases b with
    | nil => right; rfl
    | cons y ys =>
      rcases Nat.lt_trichotomy x y with h | h | h
      · left; simp [lexLe, h]
      · subst h
        rcases ih ys with h' | h'
        · left; simpa [lexLe] using h'
        · right; simpa [lexLe] using h'
      · right; simp [lexLe, h]

theorem lexLe_trans {a b c : List Nat} (h₁ : lexLe a b = true)
    (h₂ : lexLe b c = true) : lexLe a c = true := by
  induction a generalizing b c with
  | nil => rfl
  | cons x xs ih =>
    cases b with
    | nil => simp [lexLe] at h₁
    | cons y ys =>
      cases c with
      | nil => simp [lexLe] at h₂
      | cons z zs =>
        simp only [lexLe] at h₁ h₂ ⊢
        rcases Nat.lt_trichotomy x y with hxy | hxy | hxy
        · rcases Nat.lt_trichotomy y z with hyz | hyz | hyz
          · simp [Nat.lt_trans hxy hyz]
          · subst hyz; simp [hxy]
          · simp [hyz, Nat.lt_asymm hyz] at h₂
        · subst hxy
          rcases Nat.lt_trichotomy x z with hyz | hyz | hyz
          · simp [hyz]
          · subst hyz
            simp [Nat.lt_irrefl] at h₁ h₂ ⊢
            exact ih h₁ h₂
          · simp [hyz, Nat.lt_asymm hyz] at h₂
        · simp [hxy, Nat.lt_asymm hxy] at h₁

theorem mem_insertLe {le : α → α → Bool} {x z : α} {l : List α}
    (h : z ∈ insertLe le x l) : z = x ∨ z ∈ l := by
  induction l with
  | nil => simpa [insertLe] using h
  | cons y ys ih =>
    by_cases hc : le y x = true
    · simp only [insertLe, hc, if_true] at h
      rcases List.mem_cons.mp h with h1 | h1
      · right; simp [h1]
      · rcases ih h1 with h2 | h2
        · left; exact h2
        · right; simp [h2]
    · have hc' : le y x = false := by
        cases hx : le y x with
        | false => rfl
        | true => exact absurd hx hc
      simp only [insertLe, hc', Bool.false_eq_true, if_false,
        List.mem_cons] at h
      rcases h with h1 | h1 | h1
      · left; exact h1
      · right; simp [h1]
      · right; simp [h1]

theorem pairwise_insertLe {le : α → α → Bool}
    (htot : ∀ a b, le a b = true ∨ le b a = true)
    (htr : ∀ {a b c}, le a b = true → le b c = true → le a c = true)
    {l : List α} {x : α} (h : l.Pairwise (fun u w => le u w = true)) :
    (insertLe le x l).Pairwise (fun u w => le u w = true) := by
  induction l with
  | nil => simp [insertLe]
  | cons y ys ih =>
    rcases List.pairwise_cons.mp h with ⟨hy, hys⟩
    by_cases hc : le y x = true
    · simp only [insertLe, hc, if_true]
      refine List.pairwise_cons.mpr ⟨?_, ih hys⟩
      intro z hz
      rcases mem_insertLe hz with h | h
      · subst h; exact hc
      · exact hy z h
    · have hc' : le y x = false := by
        cases hx : le y x with
        | false => rfl
        | true => exact absurd hx hc
      simp only [insertLe, hc', Bool.false_eq_true, if_false]
      have hxy : le x y = true := by
        rcases htot y x with h | h
        · exact absurd h (by simp [hc'])
        · exact h
      refine List.pairwise_cons.mpr ⟨?_, h⟩
      intro z hz
      rcases List.mem_cons.mp hz with h1 | h1
      · rw [h1]; exact hxy
      · exact htr hxy (hy z h1)

theorem pairwise_sortLe_aux {le : α → α → Bool}
    (htot : ∀ a b, le a b = true ∨ le b a = true)
    (htr : ∀ {a b c}, le a b = true → le b c = true → le a c = true) :
    ∀ (l acc : List α), acc.Pairwise (fun u w => le u w = true) →
      (l.foldl (fun acc x => insertLe le x acc) acc).Pairwise
        (fun u w => le u w = true) := by
  intro l
  induction l with
  | nil => intro acc h; simpa using h
  | cons x xs ih =>
    intro acc h
    exact ih (insertLe le x acc) (pairwise_insertLe htot htr h)

/-- The stable sort produces a list pairwise ordered by `le`. -/
theorem pairwise_sortLe {le : α → α → Bool}
    (htot : ∀ a b, le a b = true ∨ le b a = true)
    (htr : ∀ {a b c}, le a b = true → le b c = true → le a c = true)
    (l : List α) : (sortLe le l).Pairwise (fun u w => le u w = true) :=
  pairwise_sortLe_aux htot htr l [] (by simp)

/-! ### Builder: a successful non-None build is cached -/

theorem cache_get_py_set {V : Type} (c : List (BP × Option V)) (b : BP)
    (v : V) : cache_get_py (cache_set c b (some v)) b = some v := by
  simp [cache_get_py, cache_lookup_set]

/-- Unfold: a cache hit returns the cached value and leaves the state
unchanged. -/
theorem from_blueprint_hit {V : Type} (ev : Nat → List (String × V) → Option V)
    (s : BState V) (src : String) (c : Nat) (o : Key) (deps : BPDeps)
    (pri : List Nat) (opt : Bool) (v : V)
    (hc : cache_get_py s.cache (BP.mk src c false o deps pri opt) = some v) :
    from_blueprint ev s (BP.mk src c false o deps pri opt) = (.ok (some v), s) := by
  simp [from_blueprint, hc]

/-- Postcondition: a build that returns a non-`None` value leaves that
value in the cache under the built Blueprint. -/
theorem from_blueprint_post {V : Type} (ev : Nat → List (String × V) → Option V)
    (s s' : BState V) (bp : BP) (v : V)
    (h : from_blueprint ev s bp = (.ok (some v), s')) :
    cache_get_py s'.cache bp = some v := by
  cases bp with
  | mk src c async o deps pri opt =>
    cases async with
    | true => simp [from_blueprint] at h
    | false =>
      rcases hc : cache_get_py s.cache (BP.mk src c false o deps pri opt)
        with _ | v₀
      · rcases hb : build_deps ev s deps with ⟨bres, s₁⟩
        cases bres with
        | error e => simp [from_blueprint, hc, hb] at h
        | ok params =>
          rcases hv : ev c params with _ | w
          · cases opt with
            | false => simp [from_blueprint, hc, hb, hv] at h
            | true => simp [from_blueprint, hc, hb, hv] at h
          · simp only [from_blueprint, Bool.false_eq_true, if_false, hc, hb,
              hv, Option.isNone_some, Bool.false_and, Prod.mk.injEq] at h
            obtain ⟨h1, h2⟩ := h
            have hw : w = v := by simpa using h1
            subst hw
            rw [← h2]
            simpa using cache_get_py_set s₁.cache
              (BP.mk src c false o deps pri opt) w
      · have h1 : v₀ = v ∧ s = s' := by
          simpa [from_blueprint, hc, Prod.mk.injEq] using h
        rw [← h1.2, ← h1.1]
        exact hc

/-- If a build returns a non-`None` value, re-building the same Blueprint
through the same Builder is a cache hit: no constructor runs, the same
value is returned, the state is unchanged. -/
theorem from_blueprint_second {V : Type} (ev : Nat → List (String × V) → Option V)
    (s s' : BState V) (bp : BP) (v : V)
    (h : from_blueprint ev s bp = (.ok (some v), s')) :
    from_blueprint ev s' bp = (.ok (some v), s') := by
  have hpost := from_blueprint_post ev s s' bp v h
  cases bp with
  | mk src c async o deps pri opt =>
    cases async with
    | true => simp [from_blueprint] at h
    | false => exact from_blueprint_hit ev s' src c o deps pri opt v hpost

/-! ### Memo irrelevance

The resolver's only state is the `_memo` dictionary.  `memoOK` says every
cached tuple is what `_raw_create_plans` would compute; it holds for the
empty memo, is preserved by every resolver function, and under it the
result component of every resolver function is independent of the memo —
so repeated `resolve` calls return the same value. -/

def memoOK (P : List Provider) (m : Memo) : Prop :=
  ∀ k cs, (k, cs) ∈ m → cs = raw_create_plans P k

theorem memoOK_nil (P : List Provider) : memoOK P [] := by
  intro k cs h
  simp at h

theorem create_plans_spec (P : List Provider) (m : Memo) (t : Key)
    (hm : memoOK P m) :
    (create_plans P m t).1 = raw_create_plans P t ∧
    memoOK P (create_plans P m t).2 := by
  rcases hf : m.find? (fun e => e.1 == t) with _ | e
  · refine ⟨by simp [create_plans, hf], ?_⟩
    intro k cs h
    simp only [create_plans, hf] at h
    rcases List.mem_append.mp h with h | h
    · exact hm k cs h
    · simp at h
      rw [h.2, h.1]
  · have hmem : e ∈ m := List.mem_of_find?_eq_some hf
    have het : e.1 = t := by simpa using List.find?_some hf
    refine ⟨?_, ?_⟩
    · simp only [create_plans, hf]
      rcases e with ⟨k, cs⟩
      simp only at het ⊢
      rw [← het]
      exact hm k cs hmem
    · simp only [create_plans, hf]
      exact hm

/-- The property of the recursive entry point used in the induction: under
a sound memo, the result is the one computed from the empty memo, and the
memo stays sound. -/
def GoodRec (P : List Provider) (rec : RecFn) : Prop :=
  ∀ m k n mo tr pr, memoOK P m →
    (rec m k n mo tr pr).1 = (rec [] k n mo tr pr).1 ∧
    memoOK P (rec m k n mo tr pr).2

theorem resolve_deps_good (P : List Provider) (rec : RecFn)
    (hg : GoodRec P rec) (mo : ResolutionMode) (tr : List Trace)
    (pr : List Nat) :
    ∀ (deps : List (String × Key)) (m : Memo), memoOK P m →
      (resolve_deps rec mo tr pr m deps).1
        = (resolve_deps rec mo tr pr [] deps).1 ∧
      memoOK P (resolve_deps rec mo tr pr m deps).2 := by
  intro deps
  induction deps with
  | nil => exact fun m hm => ⟨rfl, hm⟩
  | cons d rest ih =>
    intro m hm
    rcases d with ⟨n', k'⟩
    obtain ⟨he, hm₁⟩ := hg m k' n' mo tr pr hm
    obtain ⟨_, hm₀⟩ := hg [] k' n' mo tr pr (memoOK_nil P)
    rcases h1 : rec m k' n' mo tr pr with ⟨r₁, m₁⟩
    rcases h0 : rec [] k' n' mo tr pr with ⟨r₀, m₀⟩
    rw [h1, h0] at he
    rw [h1] at hm₁
    rw [h0] at hm₀
    simp only at he hm₁ hm₀
    subst he
    cases r₁ with
    | ok bps =>
      obtain ⟨ih₁, ihm₁⟩ := ih m₁ hm₁
      obtain ⟨ih₀, ihm₀⟩ := ih m₀ hm₀
      simp only [resolve_deps, h1, h0]
      rcases h3 : resolve_deps rec mo tr pr m₁ rest with ⟨r₃, m₃⟩
      rcases h4 : resolve_deps rec mo tr pr m₀ rest with ⟨r₄, m₄⟩
      rw [h3] at ih₁ ihm₁
      rw [h4] at ih₀ ihm₀
      simp only at ih₁ ihm₁ ih₀ ihm₀
      have hr : r₃ = r₄ := by rw [ih₁, ih₀]
      subst hr
      cases r₃ with
      | ok params => exact ⟨by trivial, ihm₁⟩
      | err e => exact ⟨by trivial, ihm₁⟩
      | div => exact ⟨by trivial, ihm₁⟩
    | err e =>
      simp only [resolve_deps, h1, h0]
      exact ⟨by trivial, hm₁⟩
    | div =>
      simp only [resolve_deps, h1, h0]
      exact ⟨by trivial, hm₁⟩

theorem resolve_plan_good (P : List Provider) (rec : RecFn)
    (hg : GoodRec P rec) (t : Key) (n : String) (plan : Ctor) (po : Nat)
    (mo : ResolutionMode) (tr : List Trace) (pr : List Nat) :
    ∀ m : Memo, memoOK P m →
      (resolve_plan rec m t n plan po mo tr pr).1
        = (resolve_plan rec [] t n plan po mo tr pr).1 ∧
      memoOK P (resolve_plan rec m t n plan po mo tr pr).2 := by
  intro m hm
  unfold resolve_plan
  by_cases hcy : (plan.source, n, t) ∈ tr
  · simp only [hcy, if_true]
    exact ⟨by trivial, hm⟩
  · simp only [hcy, if_false]
    cases hd : plan.dependencies with
    | nil => exact ⟨by trivial, hm⟩
    | cons d ds =>
      dsimp only
      obtain ⟨hdep, hdm⟩ := resolve_deps_good P rec hg mo
        (tr ++ [(plan.source, n, t)]) pr (d :: ds) m hm
      obtain ⟨_, hdm₀⟩ := resolve_deps_good P rec hg mo
        (tr ++ [(plan.source, n, t)]) pr (d :: ds) [] (memoOK_nil P)
      rcases h1 : resolve_deps rec mo (tr ++ [(plan.source, n, t)]) pr m
        (d :: ds) with ⟨r₁, m₁⟩
      rcases h0 : resolve_deps rec mo (tr ++ [(plan.source, n, t)]) pr []
        (d :: ds) with ⟨r₀, m₀⟩
      rw [h1, h0] at hdep
      rw [h1] at hdm
      rw [h0] at hdm₀
      simp only at hdep hdm hdm₀
      subst hdep
      cases r₁ with
      | ok params => exact ⟨by trivial, hdm⟩
      | err e => exact ⟨by trivial, hdm⟩
      | div => exact ⟨by trivial, hdm⟩

theorem resolve_plans_loop_good (P : List Provider) (rec : RecFn)
    (hg : GoodRec P rec) (t : Key) (n : String) (mo : ResolutionMode)
    (tr : List Trace) (pr : List Nat) :
    ∀ (plans : List Ctor) (m : Memo) (po : Nat) (errs : List RErr)
      (cons : List BP), memoOK P m →
      (resolve_plans_loop rec t n mo tr pr m po errs cons plans).1
        = (resolve_plans_loop rec t n mo tr pr [] po errs cons plans).1 ∧
      memoOK P (resolve_plans_loop rec t n mo tr pr m po errs cons plans).2 := by
  intro plans
  induction plans with
  | nil =>
    intro m po errs cons hm
    by_cases hC : (cons.isEmpty && !errs.isEmpty) = true
    · simp only [resolve_plans_loop, hC, if_true]
      exact ⟨by trivial, hm⟩
    · simp only [resolve_plans_loop, hC, if_false]
      exact ⟨by trivial, hm⟩
  | cons plan rest ih =>
    intro m po errs cons hm
    obtain ⟨hp, hpm⟩ := resolve_plan_good P rec hg t n plan po mo tr pr m hm
    obtain ⟨_, hpm₀⟩ := resolve_plan_good P rec hg t n plan po mo tr pr []
      (memoOK_nil P)
    rcases h1 : resolve_plan rec m t n plan po mo tr pr with ⟨r₁, m₁⟩
    rcases h0 : resolve_plan rec [] t n plan po mo tr pr with ⟨r₀, m₀⟩
    rw [h1, h0] at hp
    rw [h1] at hpm
    rw [h0] at hpm₀
    simp only at hp hpm hpm₀
    subst hp
    have dbl : ∀ (po' : Nat) (errs' : List RErr) (cons' : List BP),
        (resolve_plans_loop rec t n mo tr pr m₁ po' errs' cons' rest).1
          = (resolve_plans_loop rec t n mo tr pr m₀ po' errs' cons' rest).1 ∧
        memoOK P (resolve_plans_loop rec t n mo tr pr m₁ po' errs' cons' rest).2 := by
      intro po' errs' cons'
      obtain ⟨i1, i2⟩ := ih m₁ po' errs' cons' hpm
      obtain ⟨i3, _⟩ := ih m₀ po' errs' cons' hpm₀
      exact ⟨by rw [i1, i3], i2⟩
    cases r₁ with
    | ok bps =>
      simp only [resolve_plans_loop, h1, h0]
      exact dbl (po + 1) errs (cons ++ bps)
    | err e =>
      cases e with
      | noConstructor t' tr' =>
        simp only [resolve_plans_loop, h1, h0]
        exact dbl (po + 1) (errs ++ [.noConstructor t' tr']) cons
      | cyclic t' tr' =>
        simp only [resolve_plans_loop, h1, h0]
        exact dbl (po + 1) (errs ++ [.cyclic t' tr']) cons
      | failure t' tr' es =>
        simp only [resolve_plans_loop, h1, h0]
        exact dbl (po + 1) (errs ++ es) cons
      | multipleDependency t' ss tr' =>
        simp only [resolve_plans_loop, h1, h0]
        exact ⟨by trivial, hpm⟩
      | invalidMode =>
        simp only [resolve_plans_loop, h1, h0]
        exact ⟨by trivial, hpm⟩
      | indexError =>
        simp only [resolve_plans_loop, h1, h0]
        exact ⟨by trivial, hpm⟩
    | div =>
      simp only [resolve_plans_loop, h1, h0]
      exact ⟨by trivial, hpm⟩

theorem resolve_exhaustive_good (P : List Provider) (rec : RecFn)
    (hg : GoodRec P rec) (t : Key) (n : String) (mo : ResolutionMode)
    (tr : List Trace) (pr : List Nat) :
    ∀ m : Memo, memoOK P m →
      (resolve_exhaustive P rec m t n mo tr pr).1
        = (resolve_exhaustive P rec [] t n mo tr pr).1 ∧
      memoOK P (resolve_exhaustive P rec m t n mo tr pr).2 := by
  intro m hm
  obtain ⟨hc1, hcm1⟩ := create_plans_spec P m t hm
  obtain ⟨hc0, hcm0⟩ := create_plans_spec P [] t (memoOK_nil P)
  unfold resolve_exhaustive
  rcases h1 : create_plans P m t with ⟨plans₁, m₁⟩
  rcases h0 : create_plans P [] t with ⟨plans₀, m₀⟩
  dsimp only
  rw [h1] at hc1 hcm1
  rw [h0] at hc0 hcm0
  simp only at hc1 hcm1 hc0 hcm0
  have hp : plans₁ = plans₀ := by rw [hc1, hc0]
  subst hp
  by_cases he : plans₁.isEmpty = true
  · simp only [he, if_true]
    exact ⟨by trivial, hcm1⟩
  · simp only [he, Bool.false_eq_true, if_false]
    obtain ⟨i1, i2⟩ := resolve_plans_loop_good P rec hg t n mo tr pr plans₁
      m₁ 0 [] [] hcm1
    obtain ⟨i3, _⟩ := resolve_plans_loop_good P rec hg t n mo tr pr plans₁
      m₀ 0 [] [] hcm0
    exact ⟨by rw [i1, i3], i2⟩

theorem resolve_unique_good (P : List Provider) (rec : RecFn)
    (hg : GoodRec P rec) (t : Key) (n : String) (mo : ResolutionMode)
    (tr : List Trace) (pr : List Nat) :
    ∀ m : Memo, memoOK P m →
      (resolve_unique P rec m t n mo tr pr).1
        = (resolve_unique P rec [] t n mo tr pr).1 ∧
      memoOK P (resolve_unique P rec m t n mo tr pr).2 := by
  intro m hm
  obtain ⟨he, hem⟩ := resolve_exhaustive_good P rec hg t n mo tr pr m hm
  obtain ⟨_, hem₀⟩ := resolve_exhaustive_good P rec hg t n mo tr pr []
    (memoOK_nil P)
  unfold resolve_unique
  rcases h1 : resolve_exhaustive P rec m t n mo tr pr with ⟨r₁, m₁⟩
  rcases h0 : resolve_exhaustive P rec [] t n mo tr pr with ⟨r₀, m₀⟩
  rw [h1, h0] at he
  rw [h1] at hem
  rw [h0] at hem₀
  simp only at he hem hem₀
  subst he
  cases r₁ with
  | ok resolved =>
    by_cases hcnt : resolved.countP (fun bp => !bp.is_optional) > 1
    · simp only [hcnt, if_pos]
      exact ⟨by trivial, hem⟩
    · simp only [hcnt, if_neg]
      exact ⟨by trivial, hem⟩
  | err e => exact ⟨by trivial, hem⟩
  | div => exact ⟨by trivial, hem⟩

theorem resolve_first_good (P : List Provider) (rec : RecFn)
    (hg : GoodRec P rec) (t : Key) (n : String) (mo : ResolutionMode)
    (tr : List Trace) (pr : List Nat) :
    ∀ m : Memo, memoOK P m →
      (resolve_first P rec m t n mo tr pr).1
        = (resolve_first P rec [] t n mo tr pr).1 ∧
      memoOK P (resolve_first P rec m t n mo tr pr).2 := by
  intro m hm
  obtain ⟨he, hem⟩ := resolve_exhaustive_good P rec hg t n mo tr pr m hm
  obtain ⟨_, hem₀⟩ := resolve_exhaustive_good P rec hg t n mo tr pr []
    (memoOK_nil P)
  unfold resolve_first
  rcases h1 : resolve_exhaustive P rec m t n mo tr pr with ⟨r₁, m₁⟩
  rcases h0 : resolve_exhaustive P rec [] t n mo tr pr with ⟨r₀, m₀⟩
  rw [h1, h0] at he
  rw [h1] at hem
  rw [h0] at hem₀
  simp only at he hem hem₀
  subst he
  cases r₁ with
  | ok resolved => exact ⟨by trivial, hem⟩
  | err e => exact ⟨by trivial, hem⟩
  | div => exact ⟨by trivial, hem⟩

theorem resolveR_good (P : List Provider) :
    ∀ fuel : Nat, GoodRec P (resolveR P fuel) := by
  intro fuel
  induction fuel with
  | zero => exact fun m k n mo tr pr hm => ⟨rfl, hm⟩
  | succ f ihf =>
    intro m k n mo tr pr hm
    unfold resolveR
    rcases hs : split_resolution mo with _ | p
    · exact ⟨by trivial, hm⟩
    · rcases p with ⟨m₀, next⟩
      rcases hk : k.resolution with _ | r
      · cases m₀ with
        | unique =>
          simpa [hk] using resolve_unique_good P (resolveR P f) ihf
            { k with resolution := some .unique } n next tr pr m hm
        | exhaustive =>
          simpa [hk] using resolve_exhaustive_good P (resolveR P f) ihf
            { k with resolution := some .exhaustive } n next tr pr m hm
        | select_first =>
          simpa [hk] using resolve_first_good P (resolveR P f) ihf
            { k with resolution := some .select_first } n next tr pr m hm
      · cases r with
        | unique =>
          simpa [hk] using resolve_unique_good P (resolveR P f) ihf
            k n next tr pr m hm
        | exhaustive =>
          simpa [hk] using resolve_exhaustive_good P (resolveR P f) ihf
            k n next tr pr m hm
        | select_first =>
          simpa [hk] using resolve_first_good P (resolveR P f) ihf
            k n next tr pr m hm

theorem is_resolution_mode_true (m : ResolutionMode) :
    is_resolution_mode m = true := by
  cases m <;> rfl

theorem resolveTop_spec (P : List Provider) (fuel : Nat) (t : Key)
    (modeArg : Option ResolutionMode) :
    ∀ m : Memo, memoOK P m →
      (resolveTop P fuel m t modeArg).1
        = (resolveTop P fuel [] t modeArg).1 ∧
      memoOK P (resolveTop P fuel m t modeArg).2 := by
  intro m hm
  obtain ⟨he, hem⟩ := resolveR_good P fuel m t "__root__"
    (modeOrDefault modeArg) [] [] hm
  obtain ⟨_, hem₀⟩ := resolveR_good P fuel [] t "__root__"
    (modeOrDefault modeArg) [] [] (memoOK_nil P)
  unfold resolveTop
  simp only [is_resolution_mode_true, if_true]
  rcases h1 : resolveR P fuel m t "__root__" (modeOrDefault modeArg) [] []
    with ⟨r₁, m₁⟩
  rcases h0 : resolveR P fuel [] t "__root__" (modeOrDefault modeArg) [] []
    with ⟨r₀, m₀⟩
  rw [h1, h0] at he
  rw [h1] at hem
  rw [h0] at hem₀
  simp only at he hem hem₀
  subst he
  cases r₁ with
  | ok l => exact ⟨by trivial, hem⟩
  | err e => cases e <;> exact ⟨by trivial, hem⟩
  | div => exact ⟨by trivial, hem⟩

/-! ### Candidate-loop characterisation (error collection) -/

theorem frontExtends {α : Type} (l₁ l₂ : List α) : l₁ <+: l₁ ++ l₂ := ⟨l₂, rfl⟩

/-- A successful candidate loop extends the constructions accumulated so
far: Blueprints collected from earlier candidates are returned, whatever
happened to later ones. -/
theorem resolve_plans_loop_ok_front (rec : RecFn) (t : Key) (n : String)
    (mo : ResolutionMode) (tr : List Trace) (pr : List Nat) :
    ∀ (plans : List Ctor) (m : Memo) (po : Nat) (errs : List RErr)
      (cons r : List BP) (m' : Memo),
      resolve_plans_loop rec t n mo tr pr m po errs cons plans = (.ok r, m') →
      cons <+: r := by
  intro plans
  induction plans with
  | nil =>
    intro m po errs cons r m' h
    by_cases hC : (cons.isEmpty && !errs.isEmpty) = true
    · simp [resolve_plans_loop, hC] at h
    · simp [resolve_plans_loop, hC] at h
      rw [h.1]
  | cons plan rest ih =>
    intro m po errs cons r m' h
    simp only [resolve_plans_loop] at h
    rcases h1 : resolve_plan rec m t n plan po mo tr pr with ⟨r₁, m₁⟩
    rw [h1] at h
    cases r₁ with
    | ok bps =>
      exact (frontExtends cons bps).trans
        (ih m₁ (po + 1) errs (cons ++ bps) r m' h)
    | err e =>
      cases e with
      | noConstructor t' tr' => exact ih m₁ (po + 1) _ cons r m' h
      | cyclic t' tr' => exact ih m₁ (po + 1) _ cons r m' h
      | failure t' tr' es => exact ih m₁ (po + 1) _ cons r m' h
      | multipleDependency t' ss tr' => simp at h
      | invalidMode => simp at h
      | indexError => simp at h
    | div => simp at h

/-- A `ResolutionFailureError` out of the candidate loop carries the loop's
target and trace, extends the errors collected so far, and can only happen
when no constructions were accumulated. -/
theorem resolve_plans_loop_failure (rec : RecFn) (t : Key) (n : String)
    (mo : ResolutionMode) (tr : List Trace) (pr : List Nat) :
    ∀ (plans : List Ctor) (m : Memo) (po : Nat) (errs : List RErr)
      (cons : List BP) (t' : Key) (tr' : List Trace) (es : List RErr)
      (m' : Memo),
      resolve_plans_loop rec t n mo tr pr m po errs cons plans
        = (.err (.failure t' tr' es), m') →
      t' = t ∧ tr' = tr ∧ errs <+: es ∧ cons = [] := by
  intro plans
  induction plans with
  | nil =>
    intro m po errs cons t' tr' es m' h
    by_cases hC : (cons.isEmpty && !errs.isEmpty) = true
    · simp [resolve_plans_loop, hC] at h
      refine ⟨h.1.1.symm, h.1.2.1.symm, ?_, ?_⟩
      · rw [← h.1.2.2]
      · have := (Bool.and_eq_true _ _).mp hC
        exact List.isEmpty_iff.mp this.1
    · simp [resolve_plans_loop, hC] at h
  | cons plan rest ih =>
    intro m po errs cons t' tr' es m' h
    simp only [resolve_plans_loop] at h
    rcases h1 : resolve_plan rec m t n plan po mo tr pr with ⟨r₁, m₁⟩
    rw [h1] at h
    cases r₁ with
    | ok bps =>
      obtain ⟨e1, e2, e3, e4⟩ := ih m₁ (po + 1) errs (cons ++ bps) t' tr' es m' h
      exact ⟨e1, e2, e3, (List.append_eq_nil.mp e4).1⟩
    | err e =>
      cases e with
      | noConstructor t₀ tr₀ =>
        obtain ⟨e1, e2, e3, e4⟩ := ih m₁ (po + 1) _ cons t' tr' es m' h
        exact ⟨e1, e2, (frontExtends errs _).trans e3, e4⟩
      | cyclic t₀ tr₀ =>
        obtain ⟨e1, e2, e3, e4⟩ := ih m₁ (po + 1) _ cons t' tr' es m' h
        exact ⟨e1, e2, (frontExtends errs _).trans e3, e4⟩
      | failure t₀ tr₀ es₀ =>
        obtain ⟨e1, e2, e3, e4⟩ := ih m₁ (po + 1) _ cons t' tr' es m' h
        exact ⟨e1, e2, (frontExtends errs _).trans e3, e4⟩
      | multipleDependency t₀ ss tr₀ => simp at h
      | invalidMode => simp at h
      | indexError => simp at h
    | div => simp at h

/-! ### Priority bookkeeping -/

theorem emit_permutations_length (plan : Ctor) (po : Nat) (pr : List Nat) :
    ∀ (perms : List (List (String × BP) × Nat)) (i : Nat),
      (emit_permutations plan po pr i perms).length = perms.length := by
  intro perms
  induction perms with
  | nil => intro i; rfl
  | cons pp rest ih =>
    intro i
    rcases pp with ⟨pp, lvl⟩
    simp [emit_permutations, ih (i + 1)]

theorem emit_permutations_priorities (plan : Ctor) (po : Nat)
    (pr : List Nat) :
    ∀ (perms : List (List (String × BP) × Nat)) (i : Nat),
      (emit_permutations plan po pr i perms).map BP.priority
        = (List.range perms.length).map (fun j => pr ++ [po, i + j]) := by
  intro perms
  induction perms with
  | nil => intro i; rfl
  | cons pp rest ih =>
    intro i
    rcases pp with ⟨pp, lvl⟩
    simp only [emit_permutations, List.map_cons, BP.priority, ih (i + 1),
      List.length_cons, List.range_succ_eq_map, List.map_map]
    congr 1
    apply List.map_congr_left
    intro j hj
    simp only [Function.comp_apply]
    have harith : i + 1 + j = i + (j + 1) := by omega
    rw [harith]

/-- A candidate with no dependencies and no cycle yields exactly one
Blueprint, `priority = prefix ++ (planOrder, 0)`. -/
theorem resolve_plan_no_deps (rec : RecFn) (m : Memo) (t : Key) (n : String)
    (plan : Ctor) (po : Nat) (mo : ResolutionMode) (tr : List Trace)
    (pr : List Nat) (hd : plan.dependencies = [])
    (hc : (plan.source, n, t) ∉ tr) :
    resolve_plan rec m t n plan po mo tr pr
      = (.ok [BP.mk plan.source plan.ctorId plan.is_async plan.output_type
        .nil (pr ++ [po, 0]) plan.is_optional], m) := by
  simp [resolve_plan, hd, hc]

/-- Every Blueprint emitted by `_resolve_plan` has
`priority = prefix ++ (planOrder, permutationIndex)`. -/
theorem resolve_plan_priorities (rec : RecFn) (m : Memo) (t : Key)
    (n : String) (plan : Ctor) (po : Nat) (mo : ResolutionMode)
    (tr : List Trace) (pr : List Nat) (l : List BP) (m' : Memo)
    (h : resolve_plan rec m t n plan po mo tr pr = (.ok l, m')) :
    l.map BP.priority = (List.range l.length).map (fun j => pr ++ [po, j]) := by
  unfold resolve_plan at h
  by_cases hcy : (plan.source, n, t) ∈ tr
  · simp [hcy] at h
  · simp only [hcy, if_false] at h
    cases hd : plan.dependencies with
    | nil =>
      rw [hd] at h
      simp only [Prod.mk.injEq, RRes.ok.injEq] at h
      have hl : l = [BP.mk plan.source plan.ctorId plan.is_async
          plan.output_type .nil (pr ++ [po, 0]) plan.is_optional] := h.1.symm
      subst hl
      simp [BP.priority, List.range_succ]
    | cons d ds =>
      simp only [hd] at h
      rcases h1 : resolve_deps rec mo (tr ++ [(plan.source, n, t)]) pr m
        (d :: ds) with ⟨r₁, m₁⟩
      rw [h1] at h
      cases r₁ with
      | ok params =>
        simp only [Prod.mk.injEq, RRes.ok.injEq] at h
        have hl : l = emit_permutations plan po pr 0
            (permutate_parameters params) := h.1.symm
        subst hl
        rw [emit_permutations_priorities, emit_permutations_length]
        apply List.map_congr_left
        intro j hj
        simp
      | err e => simp at h
      | div => simp at h

/-! ### Cartesian-product cardinality -/

theorem permProduct_length :
    ∀ ps : List (String × List BP),
      (permProduct ps).length = (ps.map (fun p => p.2.length)).prod := by
  intro ps
  induction ps with
  | nil => rfl
  | cons p rest ih =>
    rcases p with ⟨n, vs⟩
    have inner : ∀ (vs' : List BP),
        ((vs'.map (fun v => (permProduct rest).map (fun t => (n, v) :: t))).flatten).length
          = vs'.length * (permProduct rest).length := by
      intro vs'
      induction vs' with
      | nil => simp
      | cons v vrest vih =>
        simp only [List.map_cons, List.flatten_cons, List.length_append,
          List.length_map, List.length_cons, vih]
        ring
    simp only [permProduct, inner vs, List.map_cons, List.prod_cons, ih]

theorem permutate_parameters_length (ps : List (String × List BP)) :
    (permutate_parameters ps).length = (ps.map (fun p => p.2.length)).prod := by
  simp [permutate_parameters, permProduct_length]

/-! ### Unique-mode characterisation -/

theorem resolve_unique_spec (P : List Provider) (rec : RecFn) (m : Memo)
    (t : Key) (n : String) (mo : ResolutionMode) (tr : List Trace)
    (pr : List Nat) (l : List BP) (m₁ : Memo)
    (h : resolve_exhaustive P rec m t n mo tr pr = (.ok l, m₁)) :
    (l.countP (fun bp => !bp.is_optional) > 1 →
      resolve_unique P rec m t n mo tr pr
        = (.err (.multipleDependency t (l.map BP.source) tr), m₁)) ∧
    (¬ l.countP (fun bp => !bp.is_optional) > 1 →
      resolve_unique P rec m t n mo tr pr
        = (.ok (yield_until_non_optional l), m₁)) := by
  constructor
  · intro hc
    simp [resolve_unique, h, hc]
  · intro hc
    simp [resolve_unique, h, hc]

/-! ### Registry lemmas -/

theorem add_one_subTypes (r : Registry) (e : REntry) (t : Nat) (r' : Registry)
    (h : add_one r e t = some r') : r'.subTypes = r.subTypes := by
  unfold add_one at h
  rcases hf : r.entries.find? (fun p => p.1 == t) with _ | p
  · simp only [hf] at h
    simp at h
    rw [← h]
  · simp only [hf] at h
    rcases hc : collate_entries e p.2 with _ | es
    · simp only [hc] at h
      simp at h
    · simp only [hc] at h
      simp at h
      rw [← h]

theorem add_entry_loop_subTypes (e : REntry) :
    ∀ (ts : List Nat) (r : Registry),
      (add_entry_loop e r ts).2.subTypes = r.subTypes := by
  intro ts
  induction ts with
  | nil => intro r; rfl
  | cons t rest ih =>
    intro r
    simp only [add_entry_loop]
    rcases ha : add_one r e t with _ | r'
    · rfl
    · rw [ih r', add_one_subTypes r e t r' ha]

theorem resolve_base_types_m_subTypes (bases : Nat → List Nat) (r : Registry)
    (t : Nat) : (resolve_base_types_m bases r t).2.subTypes = r.subTypes := by
  unfold resolve_base_types_m
  rcases hf : r.baseMemo.find? (fun p => p.1 == t) with _ | p
  · simp [hf]
  · simp [hf]

theorem add_entry_subTypes (bases : Nat → List Nat) (r : Registry)
    (e : REntry) : (add_entry bases r e).2.subTypes = r.subTypes := by
  unfold add_entry
  rcases h : resolve_base_types_m bases r e.keyType with ⟨bts, r₁⟩
  have : r₁.subTypes = r.subTypes := by
    have := resolve_base_types_m_subTypes bases r e.keyType
    rw [h] at this
    exact this
  rw [add_entry_loop_subTypes, this]

theorem remove_one_subTypes (r : Registry) (e : REntry) (t : Nat) :
    (remove_one r e t).2.subTypes = r.subTypes := by
  unfold remove_one
  rcases hf : r.entries.find? (fun p => p.1 == t) with _ | p
  · simp [hf]
  · simp only [hf]
    by_cases hc : p.2.contains e = true
    · simp only [hc, if_true]
      rcases he : p.2.erase e with _ | ⟨x, xs⟩
      · simp [he]
      · simp [he]
    · rw [if_neg (by simpa using hc)]

theorem remove_entry_loop_subTypes (e : REntry) :
    ∀ (ts : List Nat) (r : Registry),
      (remove_entry_loop e r ts).2.subTypes = r.subTypes := by
  intro ts
  induction ts with
  | nil => intro r; rfl
  | cons t rest ih =>
    intro r
    simp only [remove_entry_loop]
    rcases ha : remove_one r e t with ⟨raised, r'⟩
    have hsub : r'.subTypes = r.subTypes := by
      have := remove_one_subTypes r e t
      rw [ha] at this
      exact this
    cases raised
    · rw [ih r', hsub]
    · exact hsub

theorem remove_entry_subTypes (bases : Nat → List Nat) (r : Registry)
    (e : REntry) : (remove_entry bases r e).2.subTypes = r.subTypes := by
  unfold remove_entry
  rcases h : resolve_base_types_m bases r e.keyType with ⟨bts, r₁⟩
  have : r₁.subTypes = r.subTypes := by
    have := resolve_base_types_m_subTypes bases r e.keyType
    rw [h] at this
    exact this
  rw [remove_entry_loop_subTypes, this]

/-- In every reachable registry state the memoized subtype index is empty:
nothing in the code base ever calls `_add_subtype`. -/
theorem reached_subTypes_empty (bases : Nat → List Nat) (r : Registry)
    (h : Reached bases r) : r.subTypes = [] := by
  induction h with
  | init => rfl
  | add r e _ ih => rw [add_entry_subTypes, ih]
  | remove r e _ ih => rw [remove_entry_subTypes, ih]

theorem resolve_sub_types_of_empty (r : Registry) (k : RKey)
    (h : r.subTypes = []) : resolve_sub_types r k = [k] := by
  simp [resolve_sub_types, h]

/-! Membership of an added entry in all of its base-type buckets. -/

theorem insort_entry_mem (e : REntry) :
    ∀ es : List REntry, e ∈ insort_entry es e := by
  intro es
  induction es with
  | nil => simp [insort_entry]
  | cons x rest ih =>
    by_cases h : orderingLt (entry_ordering e) (entry_ordering x) = true
    · simp [insort_entry, h]
    · have h' : orderingLt (entry_ordering e) (entry_ordering x) = false := by
        cases hx : orderingLt (entry_ordering e) (entry_ordering x) with
        | false => rfl
        | true => exact absurd hx h
      simp only [insort_entry, h', Bool.false_eq_true, if_false]
      simp [ih]

theorem insort_entry_mem_of_mem (e x : REntry) :
    ∀ es : List REntry, x ∈ es → x ∈ insort_entry es e := by
  intro es
  induction es with
  | nil => intro h; simp at h
  | cons y rest ih =>
    intro h
    by_cases hlt : orderingLt (entry_ordering e) (entry_ordering y) = true
    · simp [insort_entry, hlt, h]
    · have h' : orderingLt (entry_ordering e) (entry_ordering y) = false := by
        cases hx : orderingLt (entry_ordering e) (entry_ordering y) with
        | false => rfl
        | true => exact absurd hx hlt
      simp only [insort_entry, h', Bool.false_eq_true, if_false]
      rcases List.mem_cons.mp h with h1 | h1
      · simp [h1]
      · simp [ih h1]

theorem find_bucketSet :
    ∀ (l : List (Nat × List REntry)) (t : Nat) (es : List REntry),
      ∃ t', (bucketSet l t es).find? (fun p => p.1 == t) = some (t', es) := by
  intro l t es
  induction l with
  | nil =>
    refine ⟨t, ?_⟩
    simp [bucketSet, List.find?]
  | cons p rest ih =>
    rcases p with ⟨t'', es''⟩
    by_cases h : (t'' == t) = true
    · refine ⟨t'', ?_⟩
      simp only [bucketSet, h, if_true]
      simp [List.find?, h]
    · have h' : (t'' == t) = false := by
        cases hx : (t'' == t) with
        | false => rfl
        | true => exact absurd hx h
      obtain ⟨t', ih'⟩ := ih
      refine ⟨t', ?_⟩
      simp only [bucketSet, h', Bool.false_eq_true, if_false]
      simp [List.find?, h', ih']

theorem bucketGet_set (r : Registry) (l : List (Nat × List REntry)) (t : Nat)
    (es : List REntry) :
    bucketGet { r with entries := bucketSet l t es } t = es := by
  obtain ⟨t', h⟩ := find_bucketSet l t es
  simp [bucketGet, h]

theorem find_append_none {α : Type} (p : α → Bool) :
    ∀ l₁ l₂ : List α, l₁.find? p = none →
      (l₁ ++ l₂).find? p = l₂.find? p := by
  intro l₁ l₂ h
  induction l₁ with
  | nil => rfl
  | cons x rest ih =>
    rcases hx : p x with _ | _
    · simp only [List.find?_cons, hx] at h ⊢
      simp only [List.cons_append, List.find?_cons, hx]
      exact ih (by simpa [List.find?_cons, hx] using h)
    · simp [List.find?_cons, hx] at h

theorem find_append_some {α : Type} (p : α → Bool) :
    ∀ (l₁ l₂ : List α) (q : α), l₁.find? p = some q →
      (l₁ ++ l₂).find? p = some q := by
  intro l₁ l₂ q h
  induction l₁ with
  | nil => simp [List.find?] at h
  | cons z rest ih =>
    rcases hz : p z with _ | _
    · simp only [List.find?_cons, hz] at h ⊢
      simp only [List.cons_append, List.find?_cons, hz]
      exact ih (by simpa [List.find?_cons, hz] using h)
    · simp only [List.find?_cons, hz] at h
      simp only [List.cons_append, List.find?_cons, hz]
      exact h

theorem find_bucketSet_ne (t t' : Nat) (es : List REntry) (hne : t ≠ t') :
    ∀ l : List (Nat × List REntry),
      (bucketSet l t' es).find? (fun p => p.1 == t)
        = l.find? (fun p => p.1 == t) := by
  intro l
  induction l with
  | nil =>
    simp only [bucketSet]
    have : ((t', es).1 == t) = false := by simpa using Ne.symm hne
    simp [List.find?, this]
  | cons q rest ih =>
    rcases q with ⟨tq, esq⟩
    by_cases hq : (tq == t') = true
    · have htq : tq = t' := by simpa using hq
      subst htq
      simp only [bucketSet, hq, if_true]
      have h1 : ((tq, es).1 == t) = false := by simpa using Ne.symm hne
      have h2 : ((tq, esq).1 == t) = false := by simpa using Ne.symm hne
      simp [List.find?, h1, h2]
    · have hq' : (tq == t') = false := by
        cases hx : (tq == t') with
        | false => rfl
        | true => exact absurd hx hq
      simp only [bucketSet, hq', Bool.false_eq_true, if_false]
      by_cases ht : (tq == t) = true
      · simp [List.find?, ht]
      · have ht' : (tq == t) = false := by
          cases hx : (tq == t) with
          | false => rfl
          | true => exact absurd hx ht
        simp [List.find?, ht', ih]

/-- A successful `_add_entry` puts the entry into the bucket. -/
theorem add_one_mem (r : Registry) (e : REntry) (t : Nat) (r' : Registry)
    (h : add_one r e t = some r') : e ∈ bucketGet r' t := by
  unfold add_one at h
  rcases hf : r.entries.find? (fun p => p.1 == t) with _ | p
  · simp only [hf] at h
    simp only [Option.some.injEq] at h
    subst h
    unfold bucketGet
    simp only
    rw [find_append_none _ _ _ hf]
    simp [List.find?]
  · simp only [hf] at h
    rcases hc : collate_entries e p.2 with _ | es
    · simp only [hc] at h
      simp at h
    · simp only [hc] at h
      simp only [Option.some.injEq] at h
      subst h
      have hes : es = insort_entry p.2 e := by
        unfold collate_entries at hc
        by_cases hct : p.2.contains e = true
        · rw [if_pos hct] at hc
          exact absurd hc (by simp)
        · rw [if_neg hct] at hc
          simpa using hc.symm
      rw [bucketGet_set]
      rw [hes]
      exact insort_entry_mem e p.2

/-- Running `_add_entry` on one base type does not remove entries from any
bucket. -/
theorem add_one_preserves_mem (r : Registry) (e x : REntry) (t t' : Nat)
    (r' : Registry) (h : add_one r e t' = some r')
    (hx : x ∈ bucketGet r t) : x ∈ bucketGet r' t := by
  unfold add_one at h
  rcases hf : r.entries.find? (fun p => p.1 == t') with _ | p
  · simp only [hf] at h
    simp only [Option.some.injEq] at h
    subst h
    unfold bucketGet at hx ⊢
    simp only
    rcases hg : r.entries.find? (fun p => p.1 == t) with _ | q
    · rw [hg] at hx
      simp at hx
    · rw [hg] at hx
      rw [find_append_some _ r.entries [(t', [e])] q hg]
      exact hx
  · simp only [hf] at h
    rcases hc : collate_entries e p.2 with _ | es
    · simp only [hc] at h
      simp at h
    · simp only [hc] at h
      simp only [Option.some.injEq] at h
      subst h
      have hes : es = insort_entry p.2 e := by
        unfold collate_entries at hc
        by_cases hct : p.2.contains e = true
        · rw [if_pos hct] at hc
          exact absurd hc (by simp)
        · rw [if_neg hct] at hc
          simpa using hc.symm
      by_cases hteq : t = t'
      · subst hteq
        rw [bucketGet_set, hes]
        unfold bucketGet at hx
        rw [hf] at hx
        exact insort_entry_mem_of_mem e x p.2 hx
      · unfold bucketGet at hx ⊢
        simp only
        rw [find_bucketSet_ne t t' es hteq]
        exact hx

theorem add_entry_loop_mem (e : REntry) :
    ∀ (ts : List Nat) (r : Registry),
      (add_entry_loop e r ts).1 = false →
      ∀ t ∈ ts, e ∈ bucketGet (add_entry_loop e r ts).2 t := by
  intro ts
  induction ts with
  | nil =>
    intro r _ t ht
    simp at ht
  | cons t₀ rest ih =>
    intro r hok t ht
    simp only [add_entry_loop] at hok ⊢
    rcases ha : add_one r e t₀ with _ | r'
    · simp only [ha] at hok
      simp at hok
    · simp only [ha] at hok ⊢
      rcases List.mem_cons.mp ht with h1 | h1
      · subst h1
        have hmem : e ∈ bucketGet r' t := add_one_mem r e t r' ha
        have : ∀ (ts' : List Nat) (rr : Registry), e ∈ bucketGet rr t →
            e ∈ bucketGet (add_entry_loop e rr ts').2 t := by
          intro ts'
          induction ts' with
          | nil => intro rr hm; exact hm
          | cons u urest uih =>
            intro rr hm
            simp only [add_entry_loop]
            rcases hb : add_one rr e u with _ | rr'
            · exact hm
            · exact uih rr' (add_one_preserves_mem rr e e t u rr' hb hm)
        exact this rest r' hmem
      · exact ih r' hok t h1

/-! Soundness of the base-type memo on reachable states. -/

def baseMemoOK (bases : Nat → List Nat) (r : Registry) : Prop :=
  ∀ t bs, (t, bs) ∈ r.baseMemo → bs = bases t

theorem resolve_base_types_m_spec (bases : Nat → List Nat) (r : Registry)
    (t : Nat) (hm : baseMemoOK bases r) :
    (resolve_base_types_m bases r t).1 = bases t ∧
    baseMemoOK bases (resolve_base_types_m bases r t).2 := by
  unfold resolve_base_types_m
  rcases hf : r.baseMemo.find? (fun p => p.1 == t) with _ | p
  · simp only [hf]
    refine ⟨by trivial, ?_⟩
    intro u bs h
    simp only at h
    rcases List.mem_append.mp h with h1 | h1
    · exact hm u bs h1
    · simp at h1
      rw [h1.2, h1.1]
  · simp only [hf]
    have hmem : p ∈ r.baseMemo := List.mem_of_find?_eq_some hf
    have het : p.1 = t := by simpa using List.find?_some hf
    refine ⟨?_, hm⟩
    rcases p with ⟨u, bs⟩
    simp only at het ⊢
    rw [← het]
    exact hm u bs hmem

theorem add_one_baseMemo (r : Registry) (e : REntry) (t : Nat) (r' : Registry)
    (h : add_one r e t = some r') : r'.baseMemo = r.baseMemo := by
  unfold add_one at h
  rcases hf : r.entries.find? (fun p => p.1 == t) with _ | p
  · simp only [hf] at h
    simp at h
    rw [← h]
  · simp only [hf] at h
    rcases hc : collate_entries e p.2 with _ | es
    · simp only [hc] at h
      simp at h
    · simp only [hc] at h
      simp at h
      rw [← h]

theorem add_entry_loop_baseMemo (e : REntry) :
    ∀ (ts : List Nat) (r : Registry),
      (add_entry_loop e r ts).2.baseMemo = r.baseMemo := by
  intro ts
  induction ts with
  | nil => intro r; rfl
  | cons t rest ih =>
    intro r
    simp only [add_entry_loop]
    rcases ha : add_one r e t with _ | r'
    · rfl
    · rw [ih r', add_one_baseMemo r e t r' ha]

theorem remove_one_baseMemo (r : Registry) (e : REntry) (t : Nat) :
    (remove_one r e t).2.baseMemo = r.baseMemo := by
  unfold remove_one
  rcases hf : r.entries.find? (fun p => p.1 == t) with _ | p
  · simp [hf]
  · simp only [hf]
    by_cases hc : p.2.contains e = true
    · simp only [hc, if_true]
      rcases he : p.2.erase e with _ | ⟨x, xs⟩
      · simp [he]
      · simp [he]
    · rw [if_neg (by simpa using hc)]

theorem remove_entry_loop_baseMemo (e : REntry) :
    ∀ (ts : List Nat) (r : Registry),
      (remove_entry_loop e r ts).2.baseMemo = r.baseMemo := by
  intro ts
  induction ts with
  | nil => intro r; rfl
  | cons t rest ih =>
    intro r
    simp only [remove_entry_loop]
    rcases ha : remove_one r e t with ⟨raised, r'⟩
    have hb : r'.baseMemo = r.baseMemo := by
      have := remove_one_baseMemo r e t
      rw [ha] at this
      exact this
    cases raised
    · rw [ih r', hb]
    · exact hb

theorem reached_baseMemoOK (bases : Nat → List Nat) (r : Registry)
    (h : Reached bases r) : baseMemoOK bases r := by
  induction h with
  | init => intro t bs h; simp [Registry.empty] at h
  | add r e _ ih =>
    unfold add_entry
    rcases hrb : resolve_base_types_m bases r e.keyType with ⟨bts, r₁⟩
    have hspec := resolve_base_types_m_spec bases r e.keyType ih
    rw [hrb] at hspec
    simp only at hspec
    intro t bs hmem
    rw [add_entry_loop_baseMemo] at hmem
    exact hspec.2 t bs hmem
  | remove r e _ ih =>
    unfold remove_entry
    rcases hrb : resolve_base_types_m bases r e.keyType with ⟨bts, r₁⟩
    have hspec := resolve_base_types_m_spec bases r e.keyType ih
    rw [hrb] at hspec
    simp only at hspec
    intro t bs hmem
    rw [remove_entry_loop_baseMemo] at hmem
    exact hspec.2 t bs hmem

/-! ### Attribute filtering characterisation -/

theorem filter_entries_attr (es : List REntry) (k : RKey)
    (ha : k.attributes.isEmpty = false) (hd : k.disallowSubclass = false) :
    filter_entries es k
      = es.filter (fun e => issuperset e.attributes k.attributes) := by
  unfold filter_entries
  simp only [ha, Bool.not_false, if_true]
  by_cases hne :
      (es.filter (fun e => issuperset e.attributes k.attributes)).isEmpty = true
  · simp [hne]
  · simp only [hne, Bool.not_false, Bool.not_true, Bool.false_eq_true, if_false,
      if_true, hd]

theorem get_entries_attr (r : Registry) (k : RKey)
    (ha : k.attributes.isEmpty = false) (hd : k.disallowSubclass = false) :
    get_entries r k
      = (bucketGet r k.typeId).filter
          (fun e => issuperset e.attributes k.attributes) := by
  unfold get_entries
  by_cases he : (bucketGet r k.typeId).isEmpty = true
  · rw [List.isEmpty_iff] at he
    simp [he]
  · simp only [he, Bool.false_eq_true, if_false]
    exact filter_entries_attr _ k ha hd

/-! ### Claims -/

/-- C1: during resolution of a key, branch-local failures
(`NoConstructorError`, `CyclicDependencyError`) raised by candidate
constructors are collected, not propagated: Blueprints collected from
successful candidates are always part of a successful result, and a
`ResolutionFailureError` out of the candidate loop implies every candidate
failed (no constructions were collected) and carries every collected
error.  In particular, with rules `A -> B` and `B -> A` and no independent
provider, exhaustive resolution of `A` fails with a
`ResolutionFailureError` whose errors contain a `CyclicDependencyError`,
and adding an independent provider for `A` makes exhaustive resolution of
`B` succeed with at least one Blueprint. -/
theorem C1_branch_failures_collected :
    (∀ (rec : RecFn) (t : Key) (n : String) (mo : ResolutionMode)
      (tr : List Trace) (pr : List Nat) (plans : List Ctor) (m : Memo)
      (po : Nat) (errs : List RErr) (cons r : List BP) (m' : Memo),
      resolve_plans_loop rec t n mo tr pr m po errs cons plans
        = (.ok r, m') → cons <+: r) ∧
    (∀ (rec : RecFn) (t : Key) (n : String) (mo : ResolutionMode)
      (tr : List Trace) (pr : List Nat) (plans : List Ctor) (m : Memo)
      (po : Nat) (errs : List RErr) (cons : List BP) (t' : Key)
      (tr' : List Trace) (es : List RErr) (m' : Memo),
      resolve_plans_loop rec t n mo tr pr m po errs cons plans
        = (.err (.failure t' tr' es), m') →
      t' = t ∧ tr' = tr ∧ errs <+: es ∧ cons = []) ∧
    failsWithCyclic
      (resolveTop [provCyc] 10 [] keyA (some (.single .exhaustive))).1 = true ∧
    (∃ nb, okCount
      (resolveTop [provCyc, provA0] 10 [] keyB (some (.single .exhaustive))).1
        = some nb ∧ 1 ≤ nb) := by
  refine ⟨?_, ?_, by decide, ⟨2, by decide, by decide⟩⟩
  · intro rec t n mo tr pr plans m po errs cons r m' h
    exact resolve_plans_loop_ok_front rec t n mo tr pr plans m po errs cons r m' h
  · intro rec t n mo tr pr plans m po errs cons t' tr' es m' h
    exact resolve_plans_loop_failure rec t n mo tr pr plans m po errs cons t' tr' es m' h

/-- C1 witness: the candidate loop over the single dependency-free
constructor `s1` succeeds, and the empty list of previously collected
constructions is a prefix of its result. -/
theorem C1_witness : ([] : List BP) <+: [bpU1] :=
  C1_branch_failures_collected.1 recDiv keyA "__root__" (.single .exhaustive)
    [] [] [ctorA1] [] 0 [] [] [bpU1] [] (by rfl)

/-- C2 (amended): when the exhaustive enumeration for a key in `Unique`
mode yields more than one non-optional Blueprint, `_resolve_unique` raises
`MultipleDependencyResolutionError` naming the sources of *all* enumerated
Blueprints; otherwise it yields the enumerated Blueprints up to and
including the first non-optional one (optional Blueprints after it are
dropped).  At the top level, `resolve` wraps the error in a
`ResolutionFailureError`: with two non-optional providers for the same
key, `resolve` in `Unique` mode raises a `ResolutionFailureError` whose
errors contain the `MultipleDependencyResolutionError`. -/
theorem C2_unique_mode_semantics :
    (∀ (P : List Provider) (rec : RecFn) (m : Memo) (t : Key) (n : String)
      (mo : ResolutionMode) (tr : List Trace) (pr : List Nat) (l : List BP)
      (m₁ : Memo),
      resolve_exhaustive P rec m t n mo tr pr = (.ok l, m₁) →
      (l.countP (fun bp => !bp.is_optional) > 1 →
        resolve_unique P rec m t n mo tr pr
          = (.err (.multipleDependency t (l.map BP.source) tr), m₁)) ∧
      (¬ l.countP (fun bp => !bp.is_optional) > 1 →
        resolve_unique P rec m t n mo tr pr
          = (.ok (yield_until_non_optional l), m₁))) ∧
    failsWithMultiDep
      (resolveTop [provU] 10 [] keyA (some (.single .unique))).1 = true := by
  refine ⟨?_, by decide⟩
  intro P rec m t n mo tr pr l m₁ h
  exact resolve_unique_spec P rec m t n mo tr pr l m₁ h

/-- C2 witness: with the two non-optional constructors of `provU`,
`_resolve_unique` raises the `MultipleDependencyResolutionError` naming
both sources. -/
theorem C2_witness :
    resolve_unique [provU] (resolveR [provU] 5) [] kAu "__root__"
      (.single .unique) [] []
      = (.err (.multipleDependency kAu ["s1", "s2"] []),
        [(kAu, [ctorA1, ctorA2])]) :=
  (C2_unique_mode_semantics.1 [provU] (resolveR [provU] 5) [] kAu "__root__"
    (.single .unique) [] [] [bpU1, bpU2] [(kAu, [ctorA1, ctorA2])]
    (by rfl)).1 (by decide)

/-- C2 counterexample: the claim as stated is false on the code in two
ways.  (1) `resolve` of a key with two non-optional providers in `Unique`
mode does not raise `MultipleDependencyResolutionError`: it raises a
`ResolutionFailureError` (which merely contains it).  (2) With a
non-optional constructor followed by an optional one, the optional
Blueprint after the single non-optional one is not yielded, contradicting
"yields the optional Blueprints plus the single non-optional one". -/
theorem C2_counterexample :
    errIsMultipleDependency
      (resolveTop [provU] 10 [] keyA (some (.single .unique))).1 = false ∧
    failsWithMultiDep
      (resolveTop [provU] 10 [] keyA (some (.single .unique))).1 = true ∧
    (okList
      (resolveTop [provNO] 10 [] keyA (some (.single .unique))).1).map
        BP.source = ["s1"] := by
  refine ⟨by decide, by decide, by decide⟩

/-- C3: in Exhaustive mode each candidate constructor contributes one
Blueprint per element of the Cartesian product of its dependency
candidate tuples (`permutate_parameters` enumerates exactly
`∏ |tupleᵢ|` permutations and `_resolve_plan` emits one Blueprint per
permutation); resolving a key whose rule depends on two keys, each
resolvable by exactly two providers, yields exactly four Blueprints with
pairwise distinct dependency pairings. -/
theorem C3_cartesian_product_permutations :
    (∀ ps : List (String × List BP),
      (permutate_parameters ps).length
        = (ps.map (fun p => p.2.length)).prod) ∧
    (∀ (plan : Ctor) (po : Nat) (pr : List Nat)
      (perms : List (List (String × BP) × Nat)) (i : Nat),
      (emit_permutations plan po pr i perms).length = perms.length) ∧
    okCount
      (resolveTop [provT, provX, provY] 10 [] keyT
        (some (.single .exhaustive))).1 = some 4 ∧
    (okList (resolveTop [provT, provX, provY] 10 [] keyT
        (some (.single .exhaustive))).1).map depSources
      = [[("x", "x1"), ("y", "y1")], [("x", "x1"), ("y", "y2")],
         [("x", "x2"), ("y", "y1")], [("x", "x2"), ("y", "y2")]] ∧
    ((okList (resolveTop [provT, provX, provY] 10 [] keyT
        (some (.single .exhaustive))).1).map depSources).Nodup := by
  refine ⟨permutate_parameters_length, ?_, by decide, by decide, by decide⟩
  intro plan po pr perms i
  exact emit_permutations_length plan po pr perms i

/-- C4 (amended): for a registry lookup whose key carries attribute tags
(and no `DisallowSubclass` qualifier), `get` keeps exactly the entries
whose attribute set is a structural superset of the requested tags; when
no entry's attribute set is a superset, `get` returns the *empty* set —
there is no fallback to the unfiltered entries. -/
theorem C4_attribute_superset_filter :
    ∀ (bases : Nat → List Nat) (r : Registry) (k : RKey),
      k.disallowSubclass = false → k.attributes.isEmpty = false →
      r.subTypes = [] →
      (registry_get bases r k .covariant).1
        = (bucketGet r k.typeId).filter
            (fun e => issuperset e.attributes k.attributes) ∧
      ∀ e ∈ (registry_get bases r k .covariant).1,
        issuperset e.attributes k.attributes = true := by
  intro bases r k hd ha hs
  have hmain : (registry_get bases r k .covariant).1
      = (bucketGet r k.typeId).filter
          (fun e => issuperset e.attributes k.attributes) := by
    simp only [registry_get, resolve_sub_types_of_empty r k hs, List.map_cons,
      List.map_nil, List.flatten_cons, List.flatten_nil, List.append_nil]
    exact get_entries_attr r k ha hd
  refine ⟨hmain, ?_⟩
  intro e he
  rw [hmain] at he
  exact (List.mem_filter.mp he).2

/-- C4 witness: the tag-5 lookup on the two-entry registry keeps only the
superset entry. -/
theorem C4_witness :
    (registry_get basesFlat reg12 lookupTag5 .covariant).1
      = (bucketGet reg12 lookupTag5.typeId).filter
          (fun e => issuperset e.attributes lookupTag5.attributes) :=
  (C4_attribute_superset_filter basesFlat reg12 lookupTag5 (by rfl) (by rfl)
    (by rfl)).1

/-- C4 counterexample: with one untagged entry and one entry tagged `5`
registered under type `1`, a lookup requesting tag `6` matches no entry,
and `get` returns the empty set, not the unfiltered entry set — the
claim's fallback behaviour does not exist in the code. -/
theorem C4_counterexample :
    (registry_get basesFlat reg12 lookupTag6 .covariant).1 = [] ∧
    bucketGet reg12 lookupTag6.typeId = [entryPlain, entryTag5] ∧
    (registry_get basesFlat reg12 lookupTag6 .covariant).1
      ≠ bucketGet reg12 lookupTag6.typeId := by
  refine ⟨by decide, by decide, by decide⟩

/-- C5 (amended): every Blueprint emitted by `_resolve_plan` carries
`priority = prefix ++ (planOrder, permutationIndex)`, where `prefix` is
the priority argument threaded unchanged through the recursion (empty at
the top level) and `permutationIndex` is the Blueprint's position among
the candidate's permutations; a candidate constructor with no dependencies
yields exactly one Blueprint with `priority = prefix ++ (planOrder, 0)`.
There is no dependency-chain-depth component. -/
theorem C5_priority_structure :
    (∀ (rec : RecFn) (m : Memo) (t : Key) (n : String) (plan : Ctor)
      (po : Nat) (mo : ResolutionMode) (tr : List Trace) (pr : List Nat),
      plan.dependencies = [] → (plan.source, n, t) ∉ tr →
      resolve_plan rec m t n plan po mo tr pr
        = (.ok [BP.mk plan.source plan.ctorId plan.is_async plan.output_type
          .nil (pr ++ [po, 0]) plan.is_optional], m)) ∧
    (∀ (rec : RecFn) (m : Memo) (t : Key) (n : String) (plan : Ctor)
      (po : Nat) (mo : ResolutionMode) (tr : List Trace) (pr : List Nat)
      (l : List BP) (m' : Memo),
      resolve_plan rec m t n plan po mo tr pr = (.ok l, m') →
      l.map BP.priority
        = (List.range l.length).map (fun j => pr ++ [po, j])) := by
  constructor
  · intro rec m t n plan po mo tr pr hd hc
    exact resolve_plan_no_deps rec m t n plan po mo tr pr hd hc
  · intro rec m t n plan po mo tr pr l m' h
    exact resolve_plan_priorities rec m t n plan po mo tr pr l m' h

/-- C5 witness: the dependency-free constructor `defaultA`, first in plan
order at the top level, yields the single Blueprint with priority
`(0, 0)`. -/
theorem C5_witness :
    resolve_plan recDiv [] keyA "__root__" ctorA0 0 (.single .exhaustive)
      [] []
      = (.ok [BP.mk "rule::defaultA" 3 false keyA .nil [0, 0] false], []) :=
  C5_priority_structure.1 recDiv [] keyA "__root__" ctorA0 0
    (.single .exhaustive) [] [] (by rfl) (by simp)

/-- C5 counterexample: the claim's priority layout
`(dependencyChainDepth, providerRegistrationIndex, permutationIndex)` is
false on the code: at the top level a dependency-free candidate's
Blueprint carries the two-component priority `(0, 0)`, not `(0, 0, 0)` —
no depth component is ever added. -/
theorem C5_counterexample :
    (okList (resolveTop [provA0] 10 [] keyA
      (some (.single .exhaustive))).1).map BP.priority = [[0, 0]] ∧
    ([0, 0] : List Nat) ≠ [0, 0, 0] := by
  refine ⟨by decide, by decide⟩

/-- C6: for a fixed provider list and mode, `resolve(key, mode)` is
deterministic across repeated calls: under a sound memo the result equals
the result from an empty memo, the memo stays sound, an immediately
repeated call returns the same result, and every successful result is
sorted ascending by lexicographic comparison of the priority tuples. -/
theorem C6_deterministic_sorted_resolution :
    ∀ (P : List Provider) (fuel : Nat) (t : Key)
      (modeArg : Option ResolutionMode) (m : Memo), memoOK P m →
      (resolveTop P fuel m t modeArg).1
        = (resolveTop P fuel [] t modeArg).1 ∧
      memoOK P (resolveTop P fuel m t modeArg).2 ∧
      (resolveTop P fuel (resolveTop P fuel m t modeArg).2 t modeArg).1
        = (resolveTop P fuel m t modeArg).1 ∧
      ∀ l, (resolveTop P fuel m t modeArg).1 = .ok l →
        l.Pairwise (fun a b => blueprintLe a b = true) := by
  intro P fuel t modeArg m hm
  obtain ⟨h1, h2⟩ := resolveTop_spec P fuel t modeArg m hm
  obtain ⟨h3, _⟩ := resolveTop_spec P fuel t modeArg
    (resolveTop P fuel m t modeArg).2 h2
  refine ⟨h1, h2, by rw [h3, h1], ?_⟩
  intro l hl
  unfold resolveTop at hl
  simp only [is_resolution_mode_true, if_true] at hl
  rcases hr : resolveR P fuel m t "__root__" (modeOrDefault modeArg) [] []
    with ⟨r₀, m₀⟩
  rw [hr] at hl
  cases r₀ with
  | ok l₀ =>
    simp only [Prod.mk.injEq, RRes.ok.injEq] at hl
    rw [← hl]
    exact pairwise_sortLe
      (fun a b => lexLe_total a.priority b.priority)
      (fun {x y z} h h' => @lexLe_trans x.priority y.priority z.priority h h') l₀
  | err e => cases e <;> simp at hl
  | div => simp at hl

/-- C6 witness: a second `resolve` call on the memo left by the first
returns the same result. -/
theorem C6_witness :
    (resolveTop [provU] 10
      (resolveTop [provU] 10 [] keyA (some (.single .unique))).2 keyA
      (some (.single .unique))).1
      = (resolveTop [provU] 10 [] keyA (some (.single .unique))).1 :=
  (C6_deterministic_sorted_resolution [provU] 10 keyA
    (some (.single .unique)) [] (memoOK_nil [provU])).2.2.1

/-- C7 (amended): building a Blueprint twice through the same synchronous
Builder invokes the underlying constructor exactly once and returns the
same value both times, *provided the first build produced a non-`None`
value*: the second build is then a cache hit that runs no constructor and
leaves the Builder state unchanged.  A non-`None`-valued sub-blueprint
shared by multiple parents in a diamond graph is likewise built exactly
once per Builder instance: in the concrete diamond `P -> {A, B} -> S`,
one build of `P` invokes each constructor exactly once and a repeated
build of `P` adds no invocations. -/
theorem C7_build_deduplication :
    (∀ (V : Type) (ev : Nat → List (String × V) → Option V)
      (s s' : BState V) (bp : BP) (v : V),
      from_blueprint ev s bp = (.ok (some v), s') →
      from_blueprint ev s' bp = (.ok (some v), s')) ∧
    (from_blueprint evFix (BState.empty : BState Nat) bpP).1
      = .ok (some 85) ∧
    (from_blueprint evFix (BState.empty : BState Nat) bpP).2.calls
      = [8, 10, 11, 9] ∧
    (from_blueprint evFix (BState.empty : BState Nat) bpP).2.calls.count 8
      = 1 ∧
    from_blueprint evFix
        (from_blueprint evFix (BState.empty : BState Nat) bpP).2 bpP
      = (.ok (some 85),
        (from_blueprint evFix (BState.empty : BState Nat) bpP).2) := by
  refine ⟨?_, by rfl, by decide, by decide, by rfl⟩
  intro V ev s s' bp v h
  exact from_blueprint_second ev s s' bp v h

/-- C7 witness: rebuilding the leaf Blueprint `S` after a first successful
build is a cache hit returning the same value with the state unchanged. -/
theorem C7_witness :
    from_blueprint evFix
        (from_blueprint evFix (BState.empty : BState Nat) bpS).2 bpS
      = (.ok (some 42),
        (from_blueprint evFix (BState.empty : BState Nat) bpS).2) :=
  C7_build_deduplication.1 Nat evFix BState.empty
    (from_blueprint evFix (BState.empty : BState Nat) bpS).2 bpS 42 (by rfl)

/-- C7 counterexample: the claim as stated ("for every Blueprint ...
exactly once") is false: an optional Blueprint whose constructor returns
`None` is rebuilt on every call, because a cached `None` is
indistinguishable from a cache miss (`if value is not None`).  Building
`bpOptNone` twice invokes constructor `7` twice. -/
theorem C7_counterexample :
    (from_blueprint evFix
      (from_blueprint evFix (BState.empty : BState Nat) bpOptNone).2
      bpOptNone).2.calls = [7, 7] ∧
    ¬ (from_blueprint evFix
      (from_blueprint evFix (BState.empty : BState Nat) bpOptNone).2
      bpOptNone).2.calls.count 7 = 1 := by
  refine ⟨by decide, by decide⟩

/-- C8: when a Blueprint's constructor returns an absent (`None`) value
during a build (cache miss, dependencies built successfully): if the
Blueprint is optional the Builder returns the absent value without
raising; if it is not optional the Builder raises
`NonOptionalBuilderMismatchError`. -/
theorem C8_absent_value_optionality :
    ∀ (V : Type) (ev : Nat → List (String × V) → Option V) (s : BState V)
      (src : String) (c : Nat) (o : Key) (deps : BPDeps) (pri : List Nat)
      (opt : Bool) (params : List (String × V)) (s₁ : BState V),
      cache_get_py s.cache (BP.mk src c false o deps pri opt) = none →
      build_deps ev s deps = (.ok params, s₁) →
      ev c params = none →
      (opt = true →
        from_blueprint ev s (BP.mk src c false o deps pri opt)
          = (.ok none,
            { cache := cache_set s₁.cache
                (BP.mk src c false o deps pri opt) none,
              calls := s₁.calls ++ [c] })) ∧
      (opt = false →
        from_blueprint ev s (BP.mk src c false o deps pri opt)
          = (.error .nonOptionalMismatch,
            { s₁ with calls := s₁.calls ++ [c] })) := by
  intro V ev s src c o deps pri opt params s₁ hc hb hv
  constructor
  · intro hopt
    subst hopt
    simp [from_blueprint, hc, hb, hv]
  · intro hopt
    subst hopt
    simp [from_blueprint, hc, hb, hv]

/-- C8 witness: the optional Blueprint `bpOptNone` builds to an absent
value without raising (and a non-optional sibling raises, by the same
theorem at `opt = false`). -/
theorem C8_witness :
    from_blueprint evFix (BState.empty : BState Nat) bpOptNone
      = (.ok none,
        { cache := [(bpOptNone, (none : Option Nat))], calls := [7] }) ∧
    from_blueprint evFix (BState.empty : BState Nat) bpNonOptNone
      = (.error .nonOptionalMismatch,
        { cache := [], calls := [7] }) := by
  constructor
  · exact (C8_absent_value_optionality Nat evFix BState.empty "opt" 7
      { base := 0 } .nil [] true [] BState.empty (by rfl) (by rfl)
      (by rfl)).1 (by rfl)
  · exact (C8_absent_value_optionality Nat evFix BState.empty "no" 7
      { base := 0 } .nil [] false [] BState.empty (by rfl) (by rfl)
      (by rfl)).2 (by rfl)

/-- C9: Blueprint equality is structural: any two Blueprints with equal
`constructor`, `is_async` and `dependencies` compare equal under
`Blueprint.__eq__` whatever their other fields (`source`, `output_type`,
`priority`, `is_optional`) are, and the Builder cache lookup keyed by
Blueprint therefore treats them as the same unit of work: a lookup for
one hits an entry stored under the other. -/
theorem C9_blueprint_structural_equality :
    ∀ (s₁ s₂ : String) (c : Nat) (a : Bool) (o₁ o₂ : Key) (d : BPDeps)
      (p₁ p₂ : List Nat) (q₁ q₂ : Bool) (V : Type) (v : Option V)
      (rest : List (BP × Option V)),
      BP.pyEq (.mk s₁ c a o₁ d p₁ q₁) (.mk s₂ c a o₂ d p₂ q₂) = true ∧
      cache_lookup ((BP.mk s₁ c a o₁ d p₁ q₁, v) :: rest)
        (BP.mk s₂ c a o₂ d p₂ q₂) = some v := by
  intro s₁ s₂ c a o₁ o₂ d p₁ p₂ q₁ q₂ V v rest
  have h := BP.pyEq_of_fields s₁ s₂ c a a o₁ o₂ d p₁ p₂ q₁ q₂
  exact ⟨h, cache_lookup_head _ _ v rest h⟩

/-- C10: on every registry state reachable through `add_entry` and
`remove_entry`, covariant lookup returns exactly the same entries in the
same order as invariant lookup: the memoized subtype index consulted by
covariant lookup is never populated, so `resolve_sub_types` always returns
only the queried key itself, while subtype matching is realized entirely
by `add_entry` inserting the entry into the buckets of all of its key's
base types. -/
theorem C10_covariant_equals_invariant :
    ∀ (bases : Nat → List Nat) (r : Registry), Reached bases r →
      (∀ k, resolve_sub_types r k = [k]) ∧
      (∀ k, (registry_get bases r k .covariant).1
        = (registry_get bases r k .invariant).1) ∧
      (∀ e, (add_entry bases r e).1 = false →
        ∀ t ∈ bases e.keyType,
          e ∈ bucketGet (add_entry bases r e).2 t) := by
  intro bases r hr
  have hsub := reached_subTypes_empty bases r hr
  refine ⟨fun k => resolve_sub_types_of_empty r k hsub, ?_, ?_⟩
  · intro k
    simp [registry_get, resolve_sub_types_of_empty r k hsub]
  · intro e hok t ht
    unfold add_entry at hok ⊢
    rcases hrb : resolve_base_types_m bases r e.keyType with ⟨bts, r₁⟩
    have hspec := resolve_base_types_m_spec bases r e.keyType
      (reached_baseMemoOK bases r hr)
    rw [hrb] at hspec
    simp only at hspec
    simp only [hrb] at hok ⊢
    apply add_entry_loop_mem e bts r₁ hok t
    rw [hspec.1]
    exact ht

/-- C10 witness: on the reachable one-entry registry `regH` (entry keyed
at the derived type `3`, inserted into the buckets of `3` and of its base
`2`), covariant and invariant lookup on the base type agree. -/
theorem C10_witness :
    (registry_get basesH regH lookupBase2 .covariant).1
      = (registry_get basesH regH lookupBase2 .invariant).1 :=
  (C10_covariant_equals_invariant basesH regH
    (Reached.add Registry.empty entrySub Reached.init)).2.1 lookupBase2
